import Mathlib

/-!
# Verification development for `daemon/auth.go` and the team store

A shallow embedding of the session authenticator (`TokenForUser`,
`AuthenticateUserByToken`) of the daemon package, followed by a model of the
team store of the store package.

Conventions of the embedding:

* A Go `(T, error)` result is a record holding the value, an optional error
  (`none` is Go's `nil`) and the trace of `GetUserByUsername` calls made.
* The collaborators the file imports but does not define (the user store, the
  JWT library, `unicode.ToLower`, the wall clock) are parameters.
* A `float64` is represented by the rational number it denotes.
-/

namespace daemon

/-! ## Go values -/

/-- A dynamically typed Go value (`interface{}`) as found in a claim map, a
token header or a context. `composite` stands for arrays and objects, which the
code under study never inspects. -/
inductive Value where
  | nil
  | bool (b : Bool)
  | string (s : String)
  | int64 (n : Int)
  | float64 (f : ℚ)
  | composite (json : String)
deriving DecidableEq

/-- A Go `error` value. `errorsNew` is a value made by `errors.New`, `fmtErrorf`
one made by `fmt.Errorf` with one argument, `jwt` and `jwtWrap` are errors built
by the JWT library (the latter around an error of the key function). -/
inductive GoError where
  | errorsNew (text : String)
  | fmtErrorf (format : String) (arg : Value)
  | jwt (text : String)
  | jwtWrap (text : String) (inner : GoError)
deriving DecidableEq

def USERNAME_KEY : String := "un"
def SUPERUSER_KEY : String := "su"
def VALID_UNTIL_KEY : String := "vu"

def InvalidUsernameOrPassErr : GoError := GoError.errorsNew "Invalid username or password"
def InvalidTokenFormatErr : GoError := GoError.errorsNew "Invalid token format"
def TokenExpiredErr : GoError := GoError.errorsNew "Token has expired"
def UnknownUserErr : GoError := GoError.errorsNew "Unknown user"
def EmptyUserErr : GoError := GoError.errorsNew "Username cannot be empty"
def EmptyPasswdErr : GoError := GoError.errorsNew "Password cannot be empty"

/-! ## Time -/

/-- A `time.Time`, as the number of nanoseconds since the Unix epoch. -/
structure Time where
  unixNano : Int
deriving DecidableEq

/-- A `time.Duration`: a number of nanoseconds. -/
abbrev Duration := Int

def Second : Duration := 1000000000
def Minute : Duration := 60 * Second
def Hour : Duration := 60 * Minute

/-- The method `Time.Add`. -/
def Time.Add (t : Time) (d : Duration) : Time := ⟨t.unixNano + d⟩

/-- The method `Time.Unix`: whole seconds since the epoch, rounded down. -/
def Time.Unix (t : Time) : Int := t.unixNano / 1000000000

/-! ## The user store (package `store`) -/

/-- The part of `store.User` that the authenticator reads, with the method
`IsCorrectPassword` as a field. -/
structure User where
  Username : String
  SuperUser : Bool
  IsCorrectPassword : String → Bool

/-- The interface `store.UserStore`, as far as the authenticator uses it. -/
structure UserStore where
  GetUserByUsername : String → Except GoError User

/-! ## The JWT library (package `jwt`) -/

/-- The signing methods of the JWT library, by their Go type. -/
inductive SigningMethod where
  | SigningMethodHMAC (Name : String)
  | SigningMethodRSA (Name : String)
  | SigningMethodRSAPSS (Name : String)
  | SigningMethodECDSA (Name : String)
  | signingMethodNone
deriving DecidableEq

def SigningMethodHS256 : SigningMethod := SigningMethod.SigningMethodHMAC "HS256"

/-- A Go map from strings to dynamic values (`map[string]interface{}`). -/
abbrev StringMap := List (String × Value)

/-- Indexing a Go map: the value stored under the key, or the zero value `nil`. -/
def StringMap.index (m : StringMap) (k : String) : Value :=
  (m.lookup k).getD Value.nil

/-- The interface `jwt.Claims`: either a `jwt.MapClaims` or some other
implementation. -/
inductive Claims where
  | MapClaims (m : StringMap)
  | otherClaims
deriving DecidableEq

/-- The fields of `jwt.Token` that the authenticator reads. -/
structure Token where
  Method : SigningMethod
  Header : StringMap
  Claims : Claims
  Valid : Bool
deriving DecidableEq

/-- The type `jwt.Keyfunc`. The key is the byte slice of a string and is
represented by that string. -/
abbrev Keyfunc := Token → Except GoError String

/-- The functions of other packages that `auth.go` calls.
`unicodeToLower` is the rune mapping behind `strings.ToLower`;
`SignedString method claims key` is
`jwt.NewWithClaims(method, claims).SignedString(key)`;
`Parse` is `jwt.Parse`, whose token is only looked at when the error is nil.
`int64Overflow f` is what the platform gives for the conversion `int64(f)` of a
`float64` outside the `int64` range, which Go leaves to the implementation. -/
structure Lib where
  unicodeToLower : Char → Char
  SignedString : SigningMethod → Claims → String → Except GoError String
  Parse : String → Keyfunc → Except GoError Token
  int64Overflow : ℚ → Int

/-- The Go conversion `int64(f)` of a `float64`: the fraction is discarded
(truncation towards zero) when the result is an `int64`. -/
def Lib.int64OfFloat64 (x : Lib) (f : ℚ) : Int :=
  let t := f.num.tdiv f.den
  if -(2 ^ 63) ≤ t ∧ t < 2 ^ 63 then t else x.int64Overflow f

/-- The function `strings.ToLower`: the rune mapping applied to every rune. -/
def Lib.ToLower (x : Lib) (s : String) : String := ⟨s.data.map x.unicodeToLower⟩

/-- The type assertion `v.(string)`. -/
def Value.assertString : Value → Option String
  | Value.string s => some s
  | _ => none

/-- The type assertion `v.(float64)`. -/
def Value.assertFloat64 : Value → Option ℚ
  | Value.float64 f => some f
  | _ => none

/-! ## Contexts -/

/-- Keys of context values: the two private key types of this package, and
any other key. -/
inductive CtxKey where
  | su
  | us
  | other (name : String)
deriving DecidableEq

/-- A `context.Context`, as far as its values go. -/
inductive Context where
  | Background
  | WithValue (parent : Context) (key : CtxKey) (val : Value)
deriving DecidableEq

/-- The method `Context.Value`: the innermost value stored under the key, or `nil`. -/
def Context.Value : Context → CtxKey → Value
  | Context.Background, _ => Value.nil
  | Context.WithValue parent key val, k => if k = key then val else parent.Value k

/-! ## The authenticator -/

/-- The struct `auth`. -/
structure auth where
  us : UserStore
  key : String

/-- What a call returns: the Go result pair and the arguments of the
`GetUserByUsername` calls made on the way, in order. -/
structure Outcome (α : Type) where
  ret : α
  err : Option GoError
  lookups : List String

/-- The method `TokenForUser`, run when the clock shows `now`. -/
def TokenForUser (x : Lib) (a : auth) (now : Time) (username password : String) :
    Outcome String :=
  let username := x.ToLower username
  if username = "" then ⟨"", some EmptyUserErr, []⟩
  else if password = "" then ⟨"", some EmptyPasswdErr, []⟩
  else
    match a.us.GetUserByUsername username with
    | Except.error _ => ⟨"", some InvalidUsernameOrPassErr, [username]⟩
    | Except.ok u =>
      if !u.IsCorrectPassword password then ⟨"", some InvalidUsernameOrPassErr, [username]⟩
      else
        match x.SignedString SigningMethodHS256
          (Claims.MapClaims
            [(USERNAME_KEY, Value.string u.Username),
             (SUPERUSER_KEY, Value.bool u.SuperUser),
             (VALID_UNTIL_KEY, Value.int64 (now.Add (31 * 24 * Hour)).Unix)])
          a.key with
        | Except.error err => ⟨"", some err, [username]⟩
        | Except.ok tokenString => ⟨tokenString, none, [username]⟩

/-- The key function that `AuthenticateUserByToken` hands to `jwt.Parse`. -/
def keyFunc (a : auth) : Keyfunc := fun token =>
  match token.Method with
  | SigningMethod.SigningMethodHMAC _ => Except.ok a.key
  | _ => Except.error
      (GoError.fmtErrorf "Unexpected signing method: %v" (token.Header.index "alg"))

/-- The method `AuthenticateUserByToken`, run when the clock shows `now`. -/
def AuthenticateUserByToken (x : Lib) (a : auth) (now : Time) (ctx : Context) (t : String) :
    Outcome Context :=
  match x.Parse t (keyFunc a) with
  | Except.error err => ⟨ctx, some err, []⟩
  | Except.ok token =>
    match token.Claims, token.Valid with
    | Claims.MapClaims claims, true =>
      match (claims.index USERNAME_KEY).assertString with
      | none => ⟨ctx, some InvalidTokenFormatErr, []⟩
      | some username =>
        match a.us.GetUserByUsername username with
        | Except.error _ => ⟨ctx, some UnknownUserErr, [username]⟩
        | Except.ok u =>
          match (claims.index VALID_UNTIL_KEY).assertFloat64 with
          | none => ⟨ctx, some InvalidTokenFormatErr, [username]⟩
          | some validUntil =>
            if x.int64OfFloat64 validUntil < now.Unix then ⟨ctx, some TokenExpiredErr, [username]⟩
            else
              ⟨(ctx.WithValue CtxKey.su (Value.bool u.SuperUser)).WithValue CtxKey.us
                (Value.string u.Username), none, [username]⟩
    | _, _ => ⟨ctx, none, []⟩

/-! ## Assumptions on the JWT library -/

/-- What `encoding/json` gives back for a value that was written out as JSON:
an integer comes back as the `float64` of the same number, the other values
come back as they were. -/
def Value.viaJSON : Value → Value
  | Value.int64 n => Value.float64 n
  | v => v

/-- A claim map as it comes back from JSON. -/
def StringMap.viaJSON (m : StringMap) : StringMap :=
  m.map (fun e => (e.1, e.2.viaJSON))

/-- Claims as they come back from JSON. -/
def Claims.viaJSON : Claims → Claims
  | Claims.MapClaims m => Claims.MapClaims m.viaJSON
  | c => c

/-- Parsing undoes signing, for the token string `tok`: whatever claim map was
signed with `key` into `tok`, parsing `tok` with the key function `kf` gives a
valid HS256 token whose claims are that map as read back from JSON. -/
def Lib.ParseUndoesSign (x : Lib) (kf : Keyfunc) (key tok : String) : Prop :=
  ∀ c : StringMap, x.SignedString SigningMethodHS256 (Claims.MapClaims c) key = Except.ok tok →
    ∃ hdr, x.Parse tok kf =
      Except.ok ⟨SigningMethodHS256, hdr, Claims.MapClaims c.viaJSON, true⟩

/-- The parser consults the key function: the token string `t` carries the
unverified token `tk`, and parsing `t` fails whenever the key function
rejects `tk`. -/
def Lib.ConsultsKeyfunc (x : Lib) (t : String) (tk : Token) : Prop :=
  ∀ (kf : Keyfunc) (e : GoError), kf tk = Except.error e → ∃ e', x.Parse t kf = Except.error e'

/-! ## A concrete instance for evaluation -/

/-- Header of an HS256 token. -/
def demoHeader : StringMap := [("alg", Value.string "HS256"), ("typ", Value.string "JWT")]

/-- A claim map as read back from a token. -/
def demoClaims (un : Value) (su : Value) (vu : Value) : Claims :=
  Claims.MapClaims [(USERNAME_KEY, un), (SUPERUSER_KEY, su), (VALID_UNTIL_KEY, vu)]

/-- The token strings the demo library knows: each with the token it carries
(before verification) and the key it was signed with. -/
def demoTokens : List (String × Token × String) :=
  [("tok-alice", ⟨SigningMethodHS256, demoHeader,
      demoClaims (Value.string "alice") (Value.bool true) (Value.float64 2679400), false⟩, "secret"),
   ("tok-Alice", ⟨SigningMethodHS256, demoHeader,
      demoClaims (Value.string "Alice") (Value.bool true) (Value.float64 2679400), false⟩, "secret"),
   ("tok-ghost", ⟨SigningMethodHS256, demoHeader,
      demoClaims (Value.string "ghost") (Value.bool false) (Value.string "soon"), false⟩, "secret"),
   ("tok-nameless", ⟨SigningMethodHS256, demoHeader,
      demoClaims (Value.float64 7) (Value.bool false) (Value.float64 2679400), false⟩, "secret"),
   ("tok-timeless", ⟨SigningMethodHS256, demoHeader,
      demoClaims (Value.string "alice") (Value.bool false) (Value.string "never"), false⟩, "secret"),
   ("tok-none", ⟨SigningMethod.signingMethodNone, [("alg", Value.string "none")],
      demoClaims (Value.string "alice") (Value.bool true) (Value.float64 2679400), false⟩, "")]

/-- A small instance of the library interface: it signs and parses the token
strings of `demoTokens`, checking the key the way the real parser does. -/
def demoLib : Lib where
  unicodeToLower := Char.toLower
  int64Overflow := fun _ => -(2 ^ 63)
  SignedString m c key :=
    match demoTokens.find?
      (fun e => decide (e.2.1.Method = m ∧ e.2.1.Claims = c.viaJSON ∧ e.2.2 = key)) with
    | some e => Except.ok e.1
    | none => Except.error (GoError.jwt "key is invalid")
  Parse t kf :=
    match demoTokens.lookup t with
    | none => Except.error (GoError.jwt "token contains an invalid number of segments")
    | some (tk, k) =>
      match kf tk with
      | Except.error e => Except.error (GoError.jwtWrap "token is unverifiable" e)
      | Except.ok k' =>
        if k' = k then Except.ok ⟨tk.Method, tk.Header, tk.Claims, true⟩
        else Except.error (GoError.jwt "signature is invalid")

/-- A user whose password is `pw`. -/
def demoUser (name : String) (admin : Bool) (pw : String) : User :=
  ⟨name, admin, fun p => decide (p = pw)⟩

/-- A store whose only user is `alice`, stored in lower case. -/
def demoStore : UserStore where
  GetUserByUsername n :=
    if n = "alice" then Except.ok (demoUser "alice" true "pw") else Except.error UnknownUserErr

/-- A store that finds its only user under the key `alice` and keeps the
spelling `Alice` in the record. -/
def mixedCaseStore : UserStore where
  GetUserByUsername n :=
    if n = "alice" then Except.ok (demoUser "Alice" true "pw") else Except.error UnknownUserErr

/-- An issuing time: 1000 seconds after the epoch. -/
def demoNow : Time := ⟨1000 * Second⟩

/-- An authenticator over `demoStore`. -/
def demoAuth : auth := ⟨demoStore, "secret"⟩

/-- An authenticator over `mixedCaseStore`. -/
def mixedCaseAuth : auth := ⟨mixedCaseStore, "secret"⟩

/-- A store without users. -/
def emptyStore : UserStore where
  GetUserByUsername _ := Except.error UnknownUserErr

/-- An authenticator over `emptyStore`. -/
def emptyAuth : auth := ⟨emptyStore, "secret"⟩

/-- A library whose parser returns, with a nil error, a token that is not
marked valid. -/
def looseLib : Lib where
  unicodeToLower := Char.toLower
  int64Overflow := fun _ => -(2 ^ 63)
  SignedString := demoLib.SignedString
  Parse _ _ := Except.ok ⟨SigningMethodHS256, demoHeader,
    demoClaims (Value.string "alice") (Value.bool true) (Value.float64 2679400), false⟩

/-- A library whose parser accepts every string as a valid token of `alice`,
good until second 2679400: the token string `plain` carries no `su` claim, and
every other token string carries the string `yes` as its `su` claim. -/
def suLib : Lib where
  unicodeToLower := Char.toLower
  int64Overflow := fun _ => -(2 ^ 63)
  SignedString := demoLib.SignedString
  Parse t _ := Except.ok ⟨SigningMethodHS256, demoHeader,
    Claims.MapClaims
      (if t = "plain" then
        [(USERNAME_KEY, Value.string "alice"), (VALID_UNTIL_KEY, Value.float64 2679400)]
      else
        [(USERNAME_KEY, Value.string "alice"), (SUPERUSER_KEY, Value.string "yes"),
         (VALID_UNTIL_KEY, Value.float64 2679400)]), true⟩

/-! ## Further assumptions on the collaborators -/

/-- Lower-casing a rune twice is lower-casing it once. -/
def Lib.LowerIdempotent (x : Lib) : Prop :=
  ∀ c : Char, x.unicodeToLower (x.unicodeToLower c) = x.unicodeToLower c

/-- The parser returns a nil error only with a valid token whose claims are a
claim map. -/
def Lib.ParseOkIsValidMap (x : Lib) : Prop :=
  ∀ (t : String) (kf : Keyfunc) (token : Token), x.Parse t kf = Except.ok token →
    token.Valid = true ∧ ∃ claims, token.Claims = Claims.MapClaims claims

/-- The store keeps its users under their usernames (in the data model the
username is the unique, lower-cased key of a user): the user found under a
name carries that name. -/
def UserStore.ReturnsNamedUser (s : UserStore) : Prop :=
  ∀ (n : String) (v : User), s.GetUserByUsername n = Except.ok v → v.Username = n

/-- The number `q` as an integer number of seconds: `n` is `q` with its
fraction discarded, that is the integer nearest to `q` among those between
zero and `q`. -/
def TruncatesTo (q : ℚ) (n : Int) : Prop :=
  (0 ≤ q ∧ (n : ℚ) ≤ q ∧ q < (n : ℚ) + 1) ∨ (q < 0 ∧ (n : ℚ) - 1 < q ∧ q ≤ (n : ℚ))

/-- Two answers of `GetUserByUsername` are alike: both are errors, or both are
users with the same username and superuser flag. -/
def SameAnswer : Except GoError User → Except GoError User → Prop
  | Except.error _, Except.error _ => True
  | Except.ok u, Except.ok v => u.Username = v.Username ∧ u.SuperUser = v.SuperUser
  | _, _ => False

end daemon

/-! # The team store (package `store`)

The source of the team store is not part of the development; its operations
are modelled from their description. An operation that changes the store or
the team returns the new store or team next to its Go result. -/

namespace store

open daemon

/-- Modelled from the spec: the type `Tag`, an identifier for a task's flag. -/
abbrev Tag := String

/-- Modelled from the spec: the struct `Task`, with `completedAt` absent until
the task is solved. -/
structure Task where
  FlagTag : Tag
  CompletedAt : Option Time
deriving DecidableEq

/-- Modelled from the spec: the struct `Team`. -/
structure Team where
  Name : String
  Email : String
  HashedPassword : String
  Tasks : List Task
deriving DecidableEq

/-- Modelled from the spec: the error of `SolveTaskByTag` that identifies the
tag as unknown; its text is not given. -/
def UnknownTagErr (tag : Tag) : GoError := GoError.fmtErrorf "Unknown tag: %v" (Value.string tag)

/-- Modelled from the spec: the scan of `SolveTaskByTag`, which sets
`completedAt` of the first task whose `flagTag` equals the tag to the current
time; `none` when no task matches. -/
def solveFirst (now : Time) (tag : Tag) : List Task → Option (List Task)
  | [] => none
  | ta :: rest =>
    if ta.FlagTag = tag then some (⟨ta.FlagTag, some now⟩ :: rest)
    else (solveFirst now tag rest).map (fun solved => ta :: solved)

/-- Modelled from the spec: the method `Team.SolveTaskByTag`, run when the
clock shows `now`. -/
def Team.SolveTaskByTag (t : Team) (now : Time) (tag : Tag) : Option GoError × Team :=
  match solveFirst now tag t.Tasks with
  | some tasks => (none, ⟨t.Name, t.Email, t.HashedPassword, tasks⟩)
  | none => (some (UnknownTagErr tag), t)

/-- Modelled from the spec: the error of `CreateTokenForTeam` for the empty
token, by its text. -/
def EmptyTokenErr : GoError := GoError.errorsNew "Token cannot be empty"

/-- Modelled from the spec: the error of `CreateTokenForTeam` for an email
without a team, by its text. -/
def UnknownTeamErr : GoError := GoError.errorsNew "Unknown team"

/-- Modelled from the spec: the error of `GetTeamByToken` and `DeleteToken` for
a token that is not registered, by its text. -/
def UnknownTokenErr : GoError := GoError.errorsNew "Unknown token"

/-- Modelled from the spec: the error of `CreateTeam` for an email that has a
team; the spec leaves its text open and suggests this one. -/
def TeamExistsErr : GoError := GoError.errorsNew "Team already exists"

/-- Modelled from the spec: the team store, with its two maps (email to team,
token to email) as association lists in which the first entry of a key counts. -/
structure TeamStore where
  teams : List (String × Team)
  tokens : List (String × String)
deriving DecidableEq

/-- Modelled from the spec: the constructor `NewTeamStore`, an empty store. -/
def NewTeamStore : TeamStore := ⟨[], []⟩

/-- The zero value of `Team`. -/
def zeroTeam : Team := ⟨"", "", "", []⟩

/-- Modelled from the spec: `CreateTeam` registers the team under its email and
fails if a team with that email exists. -/
def TeamStore.CreateTeam (s : TeamStore) (t : Team) : Option GoError × TeamStore :=
  match s.teams.lookup t.Email with
  | some _ => (some TeamExistsErr, s)
  | none => (none, ⟨(t.Email, t) :: s.teams, s.tokens⟩)

/-- Modelled from the spec: `CreateTokenForTeam` fails on the empty token, then
on an email without a team, and otherwise records the token for the email. -/
def TeamStore.CreateTokenForTeam (s : TeamStore) (token : String) (t : Team) :
    Option GoError × TeamStore :=
  if token = "" then (some EmptyTokenErr, s)
  else
    match s.teams.lookup t.Email with
    | none => (some UnknownTeamErr, s)
    | some _ => (none, ⟨s.teams, (token, t.Email) :: s.tokens⟩)

/-- Modelled from the spec: `GetTeamByToken` fails on a token that is not
registered and otherwise returns the team registered under the owning email
(indexing the Go map, so the zero value should there be none). -/
def TeamStore.GetTeamByToken (s : TeamStore) (token : String) : Team × Option GoError :=
  match s.tokens.lookup token with
  | none => (zeroTeam, some UnknownTokenErr)
  | some email => ((s.teams.lookup email).getD zeroTeam, none)

/-- Modelled from the spec: `DeleteToken` does nothing for the empty token,
fails on any other token that is not registered, and otherwise removes the
token. -/
def TeamStore.DeleteToken (s : TeamStore) (token : String) : Option GoError × TeamStore :=
  if token = "" then (none, s)
  else
    match s.tokens.lookup token with
    | none => (some UnknownTokenErr, s)
    | some _ => (none, ⟨s.teams, s.tokens.filter (fun e => e.1 ≠ token)⟩)

/-- A call of one of the operations that change the store. -/
inductive Op where
  | CreateTeam (t : Team)
  | CreateTokenForTeam (token : String) (t : Team)
  | DeleteToken (token : String)

/-- The store after one call. -/
def TeamStore.step (s : TeamStore) : Op → TeamStore
  | Op.CreateTeam t => (s.CreateTeam t).2
  | Op.CreateTokenForTeam token t => (s.CreateTokenForTeam token t).2
  | Op.DeleteToken token => (s.DeleteToken token).2

/-- The store after a sequence of calls. -/
def TeamStore.run (s : TeamStore) (ops : List Op) : TeamStore :=
  ops.foldl TeamStore.step s

/-- The team of the test scenario. -/
def testTeam : Team := ⟨"Test team", "tkp@tkp.dk", "", []⟩

/-- A team with two tasks that carry the same tag and one that carries another. -/
def taskTeam : Team :=
  ⟨"some name", "some@email.com", "", [⟨"xyz", none⟩, ⟨"abc", none⟩, ⟨"abc", none⟩]⟩

end store

namespace daemon

/-! ## Auxiliary lemmas -/

theorem ToLower_eq_empty_iff (x : Lib) (s : String) : x.ToLower s = "" ↔ s = "" := by
  cases s with
  | mk l =>
    cases l with
    | nil => simp [Lib.ToLower]
    | cons c cs =>
      constructor
      · intro h
        have h2 := congrArg String.data h
        simp [Lib.ToLower] at h2
      · intro h
        have h2 := congrArg String.data h
        simp at h2

theorem Unix_Add_31_days (now : Time) :
    (now.Add (31 * 24 * Hour)).Unix = now.Unix + 2678400 := by
  have h : (31 * 24 * Hour : Int) = 2678400 * 1000000000 := by
    simp [Hour, Minute, Second]
  simp only [Time.Add, Time.Unix]
  rw [h]
  exact Int.add_mul_ediv_right _ _ (by decide)

theorem Unix_mono {s t : Time} (h : s.unixNano ≤ t.unixNano) : s.Unix ≤ t.Unix :=
  Int.ediv_le_ediv (by decide) h

theorem int64OfFloat64_intCast (x : Lib) (n : Int) (h : -(2 ^ 63) ≤ n ∧ n < 2 ^ 63) :
    x.int64OfFloat64 (n : ℚ) = n := by
  have h1 : ((n : ℚ).num).tdiv ((n : ℚ).den) = n := by simp
  simp only [Lib.int64OfFloat64, h1]
  rw [if_pos h]

theorem Context_Value_us (c : Context) (v w : Value) :
    ((c.WithValue CtxKey.su v).WithValue CtxKey.us w).Value CtxKey.us = w := by
  simp [Context.Value]

theorem Context_Value_su (c : Context) (v w : Value) :
    ((c.WithValue CtxKey.su v).WithValue CtxKey.us w).Value CtxKey.su = v := by
  simp [Context.Value]

theorem keyFunc_HS256 (a : auth) (tk : Token) (h : tk.Method = SigningMethodHS256) :
    keyFunc a tk = Except.ok a.key := by
  simp [keyFunc, h, SigningMethodHS256]

/-- A successful `TokenForUser` went all the way: the lower-cased username and
the password are non-empty, the store resolved the lower-cased username to a
user who accepts the password, and the returned string is the library's
signature over the three claims of that user. -/
theorem TokenForUser_success (x : Lib) (a : auth) (now : Time) (username password : String)
    (h : (TokenForUser x a now username password).err = none) :
    ∃ u, x.ToLower username ≠ "" ∧ password ≠ "" ∧
      a.us.GetUserByUsername (x.ToLower username) = Except.ok u ∧
      u.IsCorrectPassword password = true ∧
      x.SignedString SigningMethodHS256 (Claims.MapClaims
        [(USERNAME_KEY, Value.string u.Username), (SUPERUSER_KEY, Value.bool u.SuperUser),
         (VALID_UNTIL_KEY, Value.int64 (now.Unix + 2678400))]) a.key
        = Except.ok (TokenForUser x a now username password).ret := by
  unfold TokenForUser at h ⊢
  simp only [Unix_Add_31_days] at h ⊢
  by_cases h1 : x.ToLower username = ""
  · simp [h1] at h
  by_cases h2 : password = ""
  · simp [h1, h2] at h
  simp only [if_neg h1, if_neg h2] at h ⊢
  cases hget : a.us.GetUserByUsername (x.ToLower username) with
  | error e => simp [hget] at h
  | ok u =>
    simp only [hget] at h ⊢
    cases hpw : u.IsCorrectPassword password with
    | false => simp [hpw] at h
    | true =>
      simp only [hpw, Bool.not_true, Bool.false_eq_true, if_false] at h ⊢
      refine ⟨u, h1, h2, rfl, hpw, ?_⟩
      cases hs : x.SignedString SigningMethodHS256 (Claims.MapClaims
        [(USERNAME_KEY, Value.string u.Username), (SUPERUSER_KEY, Value.bool u.SuperUser),
         (VALID_UNTIL_KEY, Value.int64 (now.Unix + 2678400))]) a.key with
      | error e => simp [hs] at h
      | ok tokenString => rfl

/-- What `AuthenticateUserByToken` does once the parser has returned, without
error, a valid token with a claim map. -/
theorem AuthenticateUserByToken_parsed (x : Lib) (a : auth) (now : Time) (ctx : Context)
    (t : String) (m : SigningMethod) (hdr claims : StringMap)
    (hparse : x.Parse t (keyFunc a) = Except.ok ⟨m, hdr, Claims.MapClaims claims, true⟩) :
    AuthenticateUserByToken x a now ctx t =
      match (claims.index USERNAME_KEY).assertString with
      | none => ⟨ctx, some InvalidTokenFormatErr, []⟩
      | some username =>
        match a.us.GetUserByUsername username with
        | Except.error _ => ⟨ctx, some UnknownUserErr, [username]⟩
        | Except.ok u =>
          match (claims.index VALID_UNTIL_KEY).assertFloat64 with
          | none => ⟨ctx, some InvalidTokenFormatErr, [username]⟩
          | some validUntil =>
            if x.int64OfFloat64 validUntil < now.Unix then ⟨ctx, some TokenExpiredErr, [username]⟩
            else
              ⟨(ctx.WithValue CtxKey.su (Value.bool u.SuperUser)).WithValue CtxKey.us
                (Value.string u.Username), none, [username]⟩ := by
  simp only [AuthenticateUserByToken, hparse]

/-- The demo library consults the key function on the token a known token
string carries. -/
theorem demoLib_ConsultsKeyfunc (t : String) (tk : Token) (k : String)
    (h : demoTokens.lookup t = some (tk, k)) : demoLib.ConsultsKeyfunc t tk := by
  intro kf e he
  exact ⟨GoError.jwtWrap "token is unverifiable" e, by simp only [demoLib, h, he]⟩

/-- Every token string the demo library signs with the key `secret` parses
back, under a key function that returns `secret` for HMAC tokens, to the
claims that were signed. -/
theorem demoLib_ParseUndoesSign (kf : Keyfunc) (tok : String)
    (hkf : ∀ tk : Token, tk.Method = SigningMethodHS256 → kf tk = Except.ok "secret") :
    demoLib.ParseUndoesSign kf "secret" tok := by
  intro c h
  simp only [demoLib] at h
  split at h
  · rename_i e he
    have hp := List.find?_some he
    have hmem := List.mem_of_find?_eq_some he
    simp only [decide_eq_true_eq] at hp
    obtain ⟨hm, hc, hk⟩ := hp
    have htok : e.1 = tok := by injection h
    subst htok
    obtain ⟨t, tk, k⟩ := e
    simp only at hm hc hk
    subst hk
    refine ⟨tk.Header, ?_⟩
    have hlook : demoTokens.lookup t = some (tk, "secret") := by
      simp only [demoTokens, List.mem_cons, Prod.mk.injEq, List.mem_singleton] at hmem
      rcases hmem with h1 | h1 | h1 | h1 | h1 | h1 | h1
      all_goals first
        | (obtain ⟨rfl, rfl, -⟩ := h1; rfl)
        | (obtain ⟨-, -, h3⟩ := h1; exact absurd h3 (by decide))
        | exact absurd h1 (List.not_mem_nil _)
    simp only [demoLib, hlook, hkf tk hm, if_true, hm]
    rw [hc]
    rfl
  · exact absurd h (by simp)

/-! ## C1: issue, then verify -/

theorem demoStore_ReturnsNamedUser : demoStore.ReturnsNamedUser := by
  intro n v h
  by_cases hn : n = "alice"
  · simp only [demoStore, hn, if_true] at h
    rw [hn, ← Except.ok.inj h]
    rfl
  · simp [demoStore, hn] at h

/-- C1: for every user store that keeps its users under their usernames, every
key and every clock, if username and password are non-empty, the store
resolves the lower-cased username to a user `u` whose password check accepts
the password, and signing succeeds with parsing undoing signing (the expiry
time being an int64), then `TokenForUser` returns the signed token with no
error, and `AuthenticateUserByToken` on that token, with the same key and at a
time at most 31 days later, returns no error and a context whose username
value is `u.Username` and whose superuser value is `u.SuperUser`. -/
theorem TokenForUser_then_AuthenticateUserByToken
    (x : Lib) (a : auth) (t0 t1 : Time) (ctx : Context) (username password tok : String)
    (u : User)
    (hstore : a.us.ReturnsNamedUser)
    (huser : username ≠ "") (hpass : password ≠ "")
    (hget : a.us.GetUserByUsername (x.ToLower username) = Except.ok u)
    (hpw : u.IsCorrectPassword password = true)
    (hsign : x.SignedString SigningMethodHS256 (Claims.MapClaims
      [(USERNAME_KEY, Value.string u.Username), (SUPERUSER_KEY, Value.bool u.SuperUser),
       (VALID_UNTIL_KEY, Value.int64 (t0.Unix + 2678400))]) a.key = Except.ok tok)
    (hundo : x.ParseUndoesSign (keyFunc a) a.key tok)
    (hint : -(2 ^ 63) ≤ t0.Unix + 2678400 ∧ t0.Unix + 2678400 < 2 ^ 63)
    (hclock : t1.unixNano ≤ t0.unixNano + 31 * 24 * Hour) :
    (TokenForUser x a t0 username password).ret = tok ∧
    (TokenForUser x a t0 username password).err = none ∧
    (AuthenticateUserByToken x a t1 ctx tok).err = none ∧
    (AuthenticateUserByToken x a t1 ctx tok).ret.Value CtxKey.us = Value.string u.Username ∧
    (AuthenticateUserByToken x a t1 ctx tok).ret.Value CtxKey.su = Value.bool u.SuperUser := by
  obtain ⟨hdr, hparse⟩ := hundo _ hsign
  have hres : a.us.GetUserByUsername u.Username = Except.ok u := by
    rw [hstore _ _ hget]
    exact hget
  have hlow : x.ToLower username ≠ "" := fun h => huser ((ToLower_eq_empty_iff x username).1 h)
  have hle : t1.Unix ≤ t0.Unix + 2678400 := by
    have h1 : t1.Unix ≤ (t0.Add (31 * 24 * Hour)).Unix := Unix_mono hclock
    rwa [Unix_Add_31_days] at h1
  have hconv : x.int64OfFloat64 ((t0.Unix : ℚ) + 2678400) = t0.Unix + 2678400 := by
    have h := int64OfFloat64_intCast x _ hint
    push_cast at h
    exact h
  have hissue : TokenForUser x a t0 username password = ⟨tok, none, [x.ToLower username]⟩ := by
    unfold TokenForUser
    simp only [if_neg hlow, if_neg hpass, hget, hpw, Unix_Add_31_days, hsign, Bool.not_true,
      Bool.false_eq_true, if_false]
  have hauth : AuthenticateUserByToken x a t1 ctx tok =
      ⟨(ctx.WithValue CtxKey.su (Value.bool u.SuperUser)).WithValue CtxKey.us
        (Value.string u.Username), none, [u.Username]⟩ := by
    simp [AuthenticateUserByToken, hparse, StringMap.index, StringMap.viaJSON, List.lookup,
      USERNAME_KEY, SUPERUSER_KEY, VALID_UNTIL_KEY, Value.viaJSON, Value.assertString,
      Value.assertFloat64, hres, hconv, hle]
  rw [hissue, hauth]
  simp [Context.Value]

/-- C1 at a concrete input: user `alice` of `demoStore` logs in as `Alice` and
presents the token 31 days later. -/
theorem TokenForUser_then_AuthenticateUserByToken_witness :
    (TokenForUser demoLib demoAuth demoNow "Alice" "pw").ret = "tok-alice" ∧
    (TokenForUser demoLib demoAuth demoNow "Alice" "pw").err = none ∧
    (AuthenticateUserByToken demoLib demoAuth (demoNow.Add (31 * 24 * Hour))
      Context.Background "tok-alice").err = none ∧
    (AuthenticateUserByToken demoLib demoAuth (demoNow.Add (31 * 24 * Hour))
      Context.Background "tok-alice").ret.Value CtxKey.us = Value.string "alice" ∧
    (AuthenticateUserByToken demoLib demoAuth (demoNow.Add (31 * 24 * Hour))
      Context.Background "tok-alice").ret.Value CtxKey.su = Value.bool true :=
  TokenForUser_then_AuthenticateUserByToken demoLib demoAuth demoNow
    (demoNow.Add (31 * 24 * Hour)) Context.Background "Alice" "pw" "tok-alice"
    (demoUser "alice" true "pw") demoStore_ReturnsNamedUser
    (by decide) (by decide) rfl rfl rfl
    (demoLib_ParseUndoesSign (keyFunc demoAuth) "tok-alice" (keyFunc_HS256 demoAuth))
    (by decide) (by decide)

/-! ## C2: one error for unknown user and wrong password -/

/-- C2: for a non-empty username and a non-empty password, `TokenForUser`
returns the empty token and `InvalidUsernameOrPassErr` when the store fails to
resolve the lower-cased username, and returns the same when the user is found
but `IsCorrectPassword` is false; so the result pair of a failed lookup (with
store `a`) and that of a wrong password (with store `b`) are equal. -/
theorem TokenForUser_InvalidUsernameOrPassErr
    (x : Lib) (a b : auth) (now : Time) (username password : String)
    (huser : username ≠ "") (hpass : password ≠ "") :
    (∀ e, a.us.GetUserByUsername (x.ToLower username) = Except.error e →
      (TokenForUser x a now username password).ret = "" ∧
      (TokenForUser x a now username password).err = some InvalidUsernameOrPassErr) ∧
    (∀ u, b.us.GetUserByUsername (x.ToLower username) = Except.ok u →
      u.IsCorrectPassword password = false →
      (TokenForUser x b now username password).ret = "" ∧
      (TokenForUser x b now username password).err = some InvalidUsernameOrPassErr) ∧
    (∀ e u, a.us.GetUserByUsername (x.ToLower username) = Except.error e →
      b.us.GetUserByUsername (x.ToLower username) = Except.ok u →
      u.IsCorrectPassword password = false →
      (TokenForUser x a now username password).ret = (TokenForUser x b now username password).ret ∧
      (TokenForUser x a now username password).err =
        (TokenForUser x b now username password).err) := by
  have hlow : x.ToLower username ≠ "" := fun h => huser ((ToLower_eq_empty_iff x username).1 h)
  have h1 : ∀ (c : auth) e, c.us.GetUserByUsername (x.ToLower username) = Except.error e →
      (TokenForUser x c now username password).ret = "" ∧
      (TokenForUser x c now username password).err = some InvalidUsernameOrPassErr := by
    intro c e he
    simp [TokenForUser, hlow, hpass, he]
  have h2 : ∀ (c : auth) u, c.us.GetUserByUsername (x.ToLower username) = Except.ok u →
      u.IsCorrectPassword password = false →
      (TokenForUser x c now username password).ret = "" ∧
      (TokenForUser x c now username password).err = some InvalidUsernameOrPassErr := by
    intro c u hu hp
    simp [TokenForUser, hlow, hpass, hu, hp]
  refine ⟨h1 a, h2 b, ?_⟩
  intro e u he hu hp
  rw [(h1 a e he).1, (h1 a e he).2, (h2 b u hu hp).1, (h2 b u hu hp).2]
  exact ⟨rfl, rfl⟩

/-- C2 at a concrete input: `bob` is unknown to `demoStore`, and `alice` with
the password `guess` is known but the password is wrong. -/
theorem TokenForUser_InvalidUsernameOrPassErr_witness :
    ((TokenForUser demoLib demoAuth demoNow "bob" "guess").ret = "" ∧
      (TokenForUser demoLib demoAuth demoNow "bob" "guess").err
        = some InvalidUsernameOrPassErr) ∧
    ((TokenForUser demoLib demoAuth demoNow "alice" "guess").ret = "" ∧
      (TokenForUser demoLib demoAuth demoNow "alice" "guess").err
        = some InvalidUsernameOrPassErr) :=
  ⟨(TokenForUser_InvalidUsernameOrPassErr demoLib demoAuth demoAuth demoNow "bob" "guess"
      (by decide) (by decide)).1 UnknownUserErr rfl,
   (TokenForUser_InvalidUsernameOrPassErr demoLib demoAuth demoAuth demoNow "alice" "guess"
      (by decide) (by decide)).2.1 (demoUser "alice" true "pw") rfl rfl⟩

/-! ## C3: expiry -/

theorem tdiv_of_TruncatesTo (q : ℚ) (n : Int) (h : TruncatesTo q n) :
    q.num.tdiv q.den = n := by
  rcases h with ⟨h0, h1, h2⟩ | ⟨h0, h1, h2⟩
  · have hnum : 0 ≤ q.num := Rat.num_nonneg.2 h0
    rw [Int.tdiv_eq_ediv hnum (Int.ofNat_nonneg _), ← Rat.floor_def]
    exact Int.floor_eq_iff.2 ⟨h1, h2⟩
  · have hnum : 0 ≤ (-q).num := Rat.num_nonneg.2 (by linarith)
    have hfloor : ⌊-q⌋ = -n := by
      apply Int.floor_eq_iff.2
      push_cast
      constructor <;> linarith
    have h3 : (-q).num.tdiv (-q).den = -n := by
      rw [Int.tdiv_eq_ediv hnum (Int.ofNat_nonneg _), ← Rat.floor_def]
      exact hfloor
    rw [Rat.neg_num, Rat.neg_den, Int.neg_tdiv] at h3
    omega

theorem int64OfFloat64_of_TruncatesTo (x : Lib) (q : ℚ) (n : Int) (h : TruncatesTo q n)
    (hr : -(2 ^ 63) ≤ n ∧ n < 2 ^ 63) : x.int64OfFloat64 q = n := by
  simp only [Lib.int64OfFloat64, tdiv_of_TruncatesTo q n h]
  rw [if_pos hr]

theorem int64OfFloat64_of_overflow (x : Lib) (q : ℚ) (n : Int) (h : TruncatesTo q n)
    (hr : ¬ (-(2 ^ 63) ≤ n ∧ n < 2 ^ 63)) : x.int64OfFloat64 q = x.int64Overflow q := by
  simp only [Lib.int64OfFloat64, tdiv_of_TruncatesTo q n h]
  rw [if_neg hr]

/-- C3: for a token that the parser accepts as valid with a claim map, whose
username claim is a string that the store resolves and whose validUntil claim
is a number, let `n` be validUntil as an integer number of seconds (its
fraction discarded). If `n` is an int64, `AuthenticateUserByToken` fails with
`TokenExpiredErr` exactly when `n` is strictly less than the current Unix
time and returns no error exactly when it is not, so a token with `n` equal to
the current Unix time is accepted. If `n` is not an int64, the result of the
conversion `int64(validUntil)` is the platform's, and that result decides in
the same way. In both cases `TokenExpiredErr` is returned exactly when the
code's `int64(validUntil)` is below the current Unix time. -/
theorem AuthenticateUserByToken_TokenExpiredErr_iff
    (x : Lib) (a : auth) (now : Time) (ctx : Context) (t : String) (m : SigningMethod)
    (hdr claims : StringMap) (username : String) (u : User) (validUntil : ℚ)
    (hparse : x.Parse t (keyFunc a) = Except.ok ⟨m, hdr, Claims.MapClaims claims, true⟩)
    (hun : claims.index USERNAME_KEY = Value.string username)
    (hres : a.us.GetUserByUsername username = Except.ok u)
    (hvu : claims.index VALID_UNTIL_KEY = Value.float64 validUntil) :
    (∀ n : Int, TruncatesTo validUntil n → -(2 ^ 63) ≤ n → n < 2 ^ 63 →
      ((AuthenticateUserByToken x a now ctx t).err = some TokenExpiredErr ↔ n < now.Unix) ∧
      ((AuthenticateUserByToken x a now ctx t).err = none ↔ now.Unix ≤ n) ∧
      (n = now.Unix → (AuthenticateUserByToken x a now ctx t).err = none)) ∧
    (∀ n : Int, TruncatesTo validUntil n → ¬ (-(2 ^ 63) ≤ n ∧ n < 2 ^ 63) →
      ((AuthenticateUserByToken x a now ctx t).err = some TokenExpiredErr ↔
        x.int64Overflow validUntil < now.Unix) ∧
      ((AuthenticateUserByToken x a now ctx t).err = none ↔
        now.Unix ≤ x.int64Overflow validUntil)) ∧
    ((AuthenticateUserByToken x a now ctx t).err = some TokenExpiredErr ↔
      x.int64OfFloat64 validUntil < now.Unix) ∧
    ((AuthenticateUserByToken x a now ctx t).err = none ↔
      now.Unix ≤ x.int64OfFloat64 validUntil) ∧
    (x.int64OfFloat64 validUntil = now.Unix →
      (AuthenticateUserByToken x a now ctx t).err = none) := by
  have hcode : ((AuthenticateUserByToken x a now ctx t).err = some TokenExpiredErr ↔
        x.int64OfFloat64 validUntil < now.Unix) ∧
      ((AuthenticateUserByToken x a now ctx t).err = none ↔
        now.Unix ≤ x.int64OfFloat64 validUntil) := by
    rw [AuthenticateUserByToken_parsed x a now ctx t m hdr claims hparse]
    simp only [hun, hvu, hres, Value.assertString, Value.assertFloat64]
    by_cases h : x.int64OfFloat64 validUntil < now.Unix
    · rw [if_pos h]
      refine ⟨⟨fun _ => h, fun _ => rfl⟩, ⟨fun h2 => ?_, fun h2 => ?_⟩⟩
      · exact absurd h2 (by simp)
      · omega
    · rw [if_neg h]
      refine ⟨⟨fun h2 => ?_, fun h2 => absurd h2 h⟩, ⟨fun _ => ?_, fun _ => rfl⟩⟩
      · exact absurd h2 (by simp)
      · omega
  refine ⟨?_, ?_, hcode.1, hcode.2, ?_⟩
  · intro n hn hlo hhi
    have hconv := int64OfFloat64_of_TruncatesTo x validUntil n hn ⟨hlo, hhi⟩
    rw [hconv] at hcode
    exact ⟨hcode.1, hcode.2, fun h => hcode.2.2 (by omega)⟩
  · intro n hn hout
    have hconv := int64OfFloat64_of_overflow x validUntil n hn hout
    rw [hconv] at hcode
    exact hcode
  · intro h
    exact hcode.2.2 (by omega)

/-- C3 at a concrete input: the token of `alice`, valid until second 2679400,
is accepted at that very second and refused as expired one second later. -/
theorem AuthenticateUserByToken_TokenExpiredErr_iff_witness :
    (AuthenticateUserByToken demoLib demoAuth ⟨2679400 * Second⟩ Context.Background
      "tok-alice").err = none ∧
    (AuthenticateUserByToken demoLib demoAuth ⟨2679401 * Second⟩ Context.Background
      "tok-alice").err = some TokenExpiredErr :=
  ⟨((AuthenticateUserByToken_TokenExpiredErr_iff demoLib demoAuth ⟨2679400 * Second⟩
      Context.Background "tok-alice" SigningMethodHS256 demoHeader
      [(USERNAME_KEY, Value.string "alice"), (SUPERUSER_KEY, Value.bool true),
       (VALID_UNTIL_KEY, Value.float64 2679400)]
      "alice" (demoUser "alice" true "pw") 2679400 rfl rfl rfl rfl).1 2679400
      (Or.inl (by simp)) (by decide) (by decide)).2.2 (by decide),
   ((AuthenticateUserByToken_TokenExpiredErr_iff demoLib demoAuth ⟨2679401 * Second⟩
      Context.Background "tok-alice" SigningMethodHS256 demoHeader
      [(USERNAME_KEY, Value.string "alice"), (SUPERUSER_KEY, Value.bool true),
       (VALID_UNTIL_KEY, Value.float64 2679400)]
      "alice" (demoUser "alice" true "pw") 2679400 rfl rfl rfl rfl).1 2679400
      (Or.inl (by simp)) (by decide) (by decide)).1.2 (by decide)⟩

/-! ## C4: lifetime -/

/-- C4: let `TokenForUser` of authenticator `a` issue a token at time `t0`, and
let the token be presented at time `t` to an authenticator `b` with the same
key, whose store still resolves the user's stored name, parsing undoing
signing and the expiry time being an int64. Then the token is accepted exactly
when `t ≤ t0 + 2678400` in Unix seconds, and is rejected with
`TokenExpiredErr` exactly when `t > t0 + 2678400`. -/
theorem AuthenticateUserByToken_lifetime
    (x : Lib) (a b : auth) (t0 t : Time) (ctx : Context) (username password : String)
    (hissued : (TokenForUser x a t0 username password).err = none)
    (hkey : b.key = a.key)
    (hundo : x.ParseUndoesSign (keyFunc b) b.key (TokenForUser x a t0 username password).ret)
    (hint : -(2 ^ 63) ≤ t0.Unix + 2678400 ∧ t0.Unix + 2678400 < 2 ^ 63)
    (hres : ∀ u, a.us.GetUserByUsername (x.ToLower username) = Except.ok u →
      ∃ u', b.us.GetUserByUsername u.Username = Except.ok u') :
    ((AuthenticateUserByToken x b t ctx (TokenForUser x a t0 username password).ret).err = none ↔
      t.Unix ≤ t0.Unix + 2678400) ∧
    ((AuthenticateUserByToken x b t ctx (TokenForUser x a t0 username password).ret).err
        = some TokenExpiredErr ↔
      t0.Unix + 2678400 < t.Unix) := by
  obtain ⟨u, -, -, hget, -, hsign⟩ := TokenForUser_success x a t0 username password hissued
  obtain ⟨u', hu'⟩ := hres u hget
  rw [← hkey] at hsign
  obtain ⟨hdr, hparse⟩ := hundo _ hsign
  have hconv : x.int64OfFloat64 ((t0.Unix : ℚ) + 2678400) = t0.Unix + 2678400 := by
    have h := int64OfFloat64_intCast x _ hint
    push_cast at h
    exact h
  rw [AuthenticateUserByToken_parsed x b t ctx _ _ hdr _ hparse]
  simp only [StringMap.index, StringMap.viaJSON, List.map, List.lookup, USERNAME_KEY, SUPERUSER_KEY,
    VALID_UNTIL_KEY, Value.viaJSON, Value.assertString, Value.assertFloat64, hu']
  simp only [show ("un" == "un") = true by decide, show ("vu" == "un") = false by decide,
    show ("vu" == "su") = false by decide, show ("vu" == "vu") = true by decide,
    Option.getD_some, Int.cast_add, Int.cast_ofNat, hconv, hu']
  by_cases h : t0.Unix + 2678400 < t.Unix
  · rw [if_pos h]
    refine ⟨⟨fun h2 => ?_, fun h2 => ?_⟩, ⟨fun _ => h, fun _ => rfl⟩⟩
    · exact absurd h2 (by simp)
    · omega
  · rw [if_neg h]
    refine ⟨⟨fun _ => ?_, fun _ => rfl⟩, ⟨fun h2 => ?_, fun h2 => absurd h2 h⟩⟩
    · omega
    · exact absurd h2 (by simp)

/-- C4 at a concrete input: the token issued to `alice` at second 1000 is
accepted at second 2679400 and rejected as expired at second 2679401. -/
theorem AuthenticateUserByToken_lifetime_witness :
    (AuthenticateUserByToken demoLib demoAuth ⟨2679400 * Second⟩ Context.Background
      (TokenForUser demoLib demoAuth demoNow "alice" "pw").ret).err = none ∧
    (AuthenticateUserByToken demoLib demoAuth ⟨2679401 * Second⟩ Context.Background
      (TokenForUser demoLib demoAuth demoNow "alice" "pw").ret).err = some TokenExpiredErr :=
  ⟨(AuthenticateUserByToken_lifetime demoLib demoAuth demoAuth demoNow ⟨2679400 * Second⟩
      Context.Background "alice" "pw" (by decide) rfl
      (demoLib_ParseUndoesSign (keyFunc demoAuth) _ (keyFunc_HS256 demoAuth)) (by decide)
      (fun _ h => ⟨demoUser "alice" true "pw", by
        have h2 : demoUser "alice" true "pw" = _ := Except.ok.inj h
        rw [← h2]; rfl⟩)).1.2 (by decide),
   (AuthenticateUserByToken_lifetime demoLib demoAuth demoAuth demoNow ⟨2679401 * Second⟩
      Context.Background "alice" "pw" (by decide) rfl
      (demoLib_ParseUndoesSign (keyFunc demoAuth) _ (keyFunc_HS256 demoAuth)) (by decide)
      (fun _ h => ⟨demoUser "alice" true "pw", by
        have h2 : demoUser "alice" true "pw" = _ := Except.ok.inj h
        rw [← h2]; rfl⟩)).2.2 (by decide)⟩

/-! ## C5: the signing method is checked -/

/-- C5: the key function returns the error `Unexpected signing method` (made
from the `alg` header) and no key for every token whose method is not an HMAC
method, in particular for `none`, and returns a key only for HMAC methods, for
which the key is the shared secret; so `AuthenticateUserByToken`, on a token
string that carries a token with a non-HMAC method and on which the parser
consults the key function, returns an error and the context it was given. -/
theorem keyFunc_rejects_non_HMAC (x : Lib) (a : auth) (now : Time) (ctx : Context) :
    (∀ token : Token, (∀ n, token.Method ≠ SigningMethod.SigningMethodHMAC n) →
      keyFunc a token = Except.error
        (GoError.fmtErrorf "Unexpected signing method: %v" (token.Header.index "alg"))) ∧
    (∀ hdr c v, keyFunc a ⟨SigningMethod.signingMethodNone, hdr, c, v⟩ = Except.error
        (GoError.fmtErrorf "Unexpected signing method: %v" (hdr.index "alg"))) ∧
    (∀ (token : Token) (k : String), keyFunc a token = Except.ok k →
      (∃ n, token.Method = SigningMethod.SigningMethodHMAC n) ∧ k = a.key) ∧
    (∀ (token : Token) (n : String), token.Method = SigningMethod.SigningMethodHMAC n →
      keyFunc a token = Except.ok a.key) ∧
    (∀ (t : String) (tk : Token), (∀ n, tk.Method ≠ SigningMethod.SigningMethodHMAC n) →
      x.ConsultsKeyfunc t tk →
      (AuthenticateUserByToken x a now ctx t).err ≠ none ∧
      (AuthenticateUserByToken x a now ctx t).ret = ctx ∧
      (AuthenticateUserByToken x a now ctx t).lookups = []) := by
  have h1 : ∀ token : Token, (∀ n, token.Method ≠ SigningMethod.SigningMethodHMAC n) →
      keyFunc a token = Except.error
        (GoError.fmtErrorf "Unexpected signing method: %v" (token.Header.index "alg")) := by
    intro token hm
    unfold keyFunc
    cases hmeth : token.Method with
    | SigningMethodHMAC n => exact absurd hmeth (hm n)
    | SigningMethodRSA n => rfl
    | SigningMethodRSAPSS n => rfl
    | SigningMethodECDSA n => rfl
    | signingMethodNone => rfl
  refine ⟨h1, ?_, ?_, ?_, ?_⟩
  · intro hdr c v
    rfl
  · intro token k hk
    unfold keyFunc at hk
    cases hmeth : token.Method with
    | SigningMethodHMAC n =>
      rw [hmeth] at hk
      exact ⟨⟨n, rfl⟩, (Except.ok.inj hk).symm⟩
    | SigningMethodRSA n => rw [hmeth] at hk; exact absurd hk (by simp)
    | SigningMethodRSAPSS n => rw [hmeth] at hk; exact absurd hk (by simp)
    | SigningMethodECDSA n => rw [hmeth] at hk; exact absurd hk (by simp)
    | signingMethodNone => rw [hmeth] at hk; exact absurd hk (by simp)
  · intro token n hmeth
    unfold keyFunc
    rw [hmeth]
  · intro t tk hm hcons
    obtain ⟨e', he'⟩ := hcons (keyFunc a) _ (h1 tk hm)
    simp [AuthenticateUserByToken, he']

/-- C5 at a concrete input: the token string `tok-none` declares the method
`none`; the demo parser consults the key function, and verification fails. -/
theorem keyFunc_rejects_non_HMAC_witness :
    (AuthenticateUserByToken demoLib demoAuth demoNow Context.Background "tok-none").err ≠ none ∧
    (AuthenticateUserByToken demoLib demoAuth demoNow Context.Background "tok-none").ret
      = Context.Background ∧
    (AuthenticateUserByToken demoLib demoAuth demoNow Context.Background "tok-none").lookups
      = [] :=
  (keyFunc_rejects_non_HMAC demoLib demoAuth demoNow Context.Background).2.2.2.2 "tok-none"
    ⟨SigningMethod.signingMethodNone, [("alg", Value.string "none")],
      demoClaims (Value.string "alice") (Value.bool true) (Value.float64 2679400), false⟩
    (by intro n h; exact SigningMethod.noConfusion h)
    (demoLib_ConsultsKeyfunc _ _ "" rfl)

/-! ## C6: input validation -/

/-- C6: for every password, `TokenForUser` with the empty username returns the
empty token and `EmptyUserErr`; for every non-empty username, `TokenForUser`
with the empty password returns the empty token and `EmptyPasswdErr`; in both
cases no call of `GetUserByUsername` is made. -/
theorem TokenForUser_empty_input (x : Lib) (a : auth) (now : Time) :
    (∀ pw : String,
      (TokenForUser x a now "" pw).ret = "" ∧
      (TokenForUser x a now "" pw).err = some EmptyUserErr ∧
      (TokenForUser x a now "" pw).lookups = []) ∧
    (∀ username : String, username ≠ "" →
      (TokenForUser x a now username "").ret = "" ∧
      (TokenForUser x a now username "").err = some EmptyPasswdErr ∧
      (TokenForUser x a now username "").lookups = []) := by
  constructor
  · intro pw
    have h : x.ToLower "" = "" := (ToLower_eq_empty_iff x "").2 rfl
    simp [TokenForUser, h]
  · intro username huser
    have hlow : x.ToLower username ≠ "" := fun h => huser ((ToLower_eq_empty_iff x username).1 h)
    simp [TokenForUser, hlow]

/-- C6 at a concrete input: the username `alice` with the empty password. -/
theorem TokenForUser_empty_input_witness :
    (TokenForUser demoLib demoAuth demoNow "alice" "").ret = "" ∧
    (TokenForUser demoLib demoAuth demoNow "alice" "").err = some EmptyPasswdErr ∧
    (TokenForUser demoLib demoAuth demoNow "alice" "").lookups = [] :=
  (TokenForUser_empty_input demoLib demoAuth demoNow).2 "alice" (by decide)

/-! ## C7: the context on failure -/

/-- C7: whenever `AuthenticateUserByToken` returns a non-nil error, the context
it returns is the context it was given. -/
theorem AuthenticateUserByToken_error_keeps_ctx
    (x : Lib) (a : auth) (now : Time) (ctx : Context) (t : String)
    (herr : (AuthenticateUserByToken x a now ctx t).err ≠ none) :
    (AuthenticateUserByToken x a now ctx t).ret = ctx := by
  cases hp : x.Parse t (keyFunc a) with
  | error e => simp [AuthenticateUserByToken, hp]
  | ok token =>
    obtain ⟨m, hdr, c, v⟩ := token
    cases c with
    | otherClaims => simp [AuthenticateUserByToken, hp]
    | MapClaims claims =>
      cases v with
      | false => simp [AuthenticateUserByToken, hp]
      | true =>
        rw [AuthenticateUserByToken_parsed x a now ctx t m hdr claims hp] at herr ⊢
        cases h1 : (claims.index USERNAME_KEY).assertString with
        | none => rfl
        | some username =>
          cases h2 : a.us.GetUserByUsername username with
          | error e => simp only [h2]
          | ok u =>
            cases h3 : (claims.index VALID_UNTIL_KEY).assertFloat64 with
            | none => simp only [h2, h3]
            | some validUntil =>
              by_cases h4 : x.int64OfFloat64 validUntil < now.Unix
              · simp only [h2, h3, h4, if_true]
              · simp [h1, h2, h3, h4] at herr

/-- C7 at a concrete input: the token of the unknown user `ghost` is refused
and the context with a request id comes back as it was. -/
theorem AuthenticateUserByToken_error_keeps_ctx_witness :
    (AuthenticateUserByToken demoLib demoAuth demoNow
      (Context.Background.WithValue (CtxKey.other "request-id") (Value.string "r1"))
      "tok-ghost").ret
      = Context.Background.WithValue (CtxKey.other "request-id") (Value.string "r1") :=
  AuthenticateUserByToken_error_keeps_ctx demoLib demoAuth demoNow
    (Context.Background.WithValue (CtxKey.other "request-id") (Value.string "r1"))
    "tok-ghost" (by decide)

/-! ## C8: the user is resolved before the expiry is looked at -/

/-- C8: for a token that the parser accepts as valid with a claim map and whose
username claim is a string, if `GetUserByUsername` fails on that string then
`AuthenticateUserByToken` returns `UnknownUserErr` (and the context it was
given), whatever the other claims are; and if it returns `TokenExpiredErr` or
`InvalidTokenFormatErr`, the store has resolved the username. -/
theorem AuthenticateUserByToken_UnknownUserErr
    (x : Lib) (a : auth) (now : Time) (ctx : Context) (t : String) (m : SigningMethod)
    (hdr claims : StringMap) (username : String)
    (hparse : x.Parse t (keyFunc a) = Except.ok ⟨m, hdr, Claims.MapClaims claims, true⟩)
    (hun : claims.index USERNAME_KEY = Value.string username) :
    (∀ e, a.us.GetUserByUsername username = Except.error e →
      (AuthenticateUserByToken x a now ctx t).err = some UnknownUserErr ∧
      (AuthenticateUserByToken x a now ctx t).ret = ctx) ∧
    ((AuthenticateUserByToken x a now ctx t).err = some TokenExpiredErr ∨
      (AuthenticateUserByToken x a now ctx t).err = some InvalidTokenFormatErr →
      ∃ u, a.us.GetUserByUsername username = Except.ok u) := by
  rw [AuthenticateUserByToken_parsed x a now ctx t m hdr claims hparse]
  simp only [hun, Value.assertString]
  constructor
  · intro e he
    simp only [he, and_self]
  · intro h
    cases h2 : a.us.GetUserByUsername username with
    | ok u => exact ⟨u, rfl⟩
    | error e =>
      simp only [h2] at h
      rcases h with h | h
      · exact absurd h (by decide)
      · exact absurd h (by decide)

/-- C8 at a concrete input: the token of `ghost`, whose validUntil claim is
not even a number, is refused with `UnknownUserErr`. -/
theorem AuthenticateUserByToken_UnknownUserErr_witness :
    (AuthenticateUserByToken demoLib demoAuth demoNow Context.Background "tok-ghost").err
      = some UnknownUserErr ∧
    (AuthenticateUserByToken demoLib demoAuth demoNow Context.Background "tok-ghost").ret
      = Context.Background :=
  (AuthenticateUserByToken_UnknownUserErr demoLib demoAuth demoNow Context.Background
    "tok-ghost" SigningMethodHS256 demoHeader
    [(USERNAME_KEY, Value.string "ghost"), (SUPERUSER_KEY, Value.bool false),
     (VALID_UNTIL_KEY, Value.string "soon")] "ghost" rfl rfl).1 UnknownUserErr rfl

/-! ## C9: malformed claims -/

/-- C9: for a token that the parser accepts as valid with a claim map,
`AuthenticateUserByToken` returns `InvalidTokenFormatErr` without any call of
`GetUserByUsername` when the claim `un` is absent, and likewise when it is not
a string; and it returns `InvalidTokenFormatErr` when the claim `un` is a
string that the store resolves while the claim `vu` is absent or not a
`float64`. -/
theorem AuthenticateUserByToken_InvalidTokenFormatErr
    (x : Lib) (a : auth) (now : Time) (ctx : Context) (t : String) (m : SigningMethod)
    (hdr claims : StringMap)
    (hparse : x.Parse t (keyFunc a) = Except.ok ⟨m, hdr, Claims.MapClaims claims, true⟩) :
    (claims.lookup USERNAME_KEY = none →
      (AuthenticateUserByToken x a now ctx t).err = some InvalidTokenFormatErr ∧
      (AuthenticateUserByToken x a now ctx t).lookups = []) ∧
    ((∀ s, claims.index USERNAME_KEY ≠ Value.string s) →
      (AuthenticateUserByToken x a now ctx t).err = some InvalidTokenFormatErr ∧
      (AuthenticateUserByToken x a now ctx t).lookups = []) ∧
    (∀ username u, claims.index USERNAME_KEY = Value.string username →
      a.us.GetUserByUsername username = Except.ok u →
      (claims.lookup VALID_UNTIL_KEY = none ∨ ∀ f, claims.index VALID_UNTIL_KEY ≠ Value.float64 f) →
      (AuthenticateUserByToken x a now ctx t).err = some InvalidTokenFormatErr) := by
  rw [AuthenticateUserByToken_parsed x a now ctx t m hdr claims hparse]
  have hstr : (∀ s, claims.index USERNAME_KEY ≠ Value.string s) →
      (claims.index USERNAME_KEY).assertString = none := by
    intro h
    cases hv : claims.index USERNAME_KEY with
    | string s => exact absurd hv (h s)
    | nil => rfl
    | bool b => rfl
    | int64 n => rfl
    | float64 f => rfl
    | composite j => rfl
  have hflt : (∀ f, claims.index VALID_UNTIL_KEY ≠ Value.float64 f) →
      (claims.index VALID_UNTIL_KEY).assertFloat64 = none := by
    intro h
    cases hv : claims.index VALID_UNTIL_KEY with
    | float64 f => exact absurd hv (h f)
    | nil => rfl
    | bool b => rfl
    | int64 n => rfl
    | string s => rfl
    | composite j => rfl
  refine ⟨?_, ?_, ?_⟩
  · intro h
    have h2 : claims.index USERNAME_KEY = Value.nil := by simp [StringMap.index, h]
    simp only [h2, Value.assertString, and_self]
  · intro h
    simp only [hstr h, and_self]
  · intro username u hun hres hvu
    have h2 : (claims.index VALID_UNTIL_KEY).assertFloat64 = none := by
      rcases hvu with h | h
      · have h3 : claims.index VALID_UNTIL_KEY = Value.nil := by simp [StringMap.index, h]
        rw [h3]
        rfl
      · exact hflt h
    simp only [hun, Value.assertString, hres, h2]

/-- C9 at a concrete input: a token whose `un` claim is the number 7 is refused
before any lookup. -/
theorem AuthenticateUserByToken_InvalidTokenFormatErr_witness :
    (AuthenticateUserByToken demoLib demoAuth demoNow Context.Background "tok-nameless").err
      = some InvalidTokenFormatErr ∧
    (AuthenticateUserByToken demoLib demoAuth demoNow Context.Background "tok-nameless").lookups
      = [] :=
  (AuthenticateUserByToken_InvalidTokenFormatErr demoLib demoAuth demoNow Context.Background
    "tok-nameless" SigningMethodHS256 demoHeader
    [(USERNAME_KEY, Value.float64 7), (SUPERUSER_KEY, Value.bool false),
     (VALID_UNTIL_KEY, Value.float64 2679400)] rfl).2.1
    (fun s h => Value.noConfusion (show Value.float64 7 = Value.string s from h))

/-! ## C10: the issued claims -/

/-- C10: whenever `TokenForUser` succeeds at time `now`, the store resolved the
lower-cased username to a user `u`, and the returned token is the HS256
signature, under the key of the authenticator, of a claim map with exactly
three entries under three different keys: `un` is `u.Username`, `su` is
`u.SuperUser` and `vu` is the Unix time of `now` plus 2678400, which is
strictly greater than the Unix time of `now`. -/
theorem TokenForUser_issued_claims
    (x : Lib) (a : auth) (now : Time) (username password : String)
    (hok : (TokenForUser x a now username password).err = none) :
    ∃ (u : User) (claims : StringMap),
      a.us.GetUserByUsername (x.ToLower username) = Except.ok u ∧
      x.SignedString SigningMethodHS256 (Claims.MapClaims claims) a.key
        = Except.ok (TokenForUser x a now username password).ret ∧
      claims = [("un", Value.string u.Username), ("su", Value.bool u.SuperUser),
        ("vu", Value.int64 (now.Unix + 2678400))] ∧
      claims.length = 3 ∧ (claims.map Prod.fst).Nodup ∧
      now.Unix < now.Unix + 2678400 := by
  obtain ⟨u, -, -, hget, -, hsign⟩ := TokenForUser_success x a now username password hok
  refine ⟨u, _, hget, hsign, rfl, rfl, ?_, by omega⟩
  simp [USERNAME_KEY, SUPERUSER_KEY, VALID_UNTIL_KEY]

/-- C10 at a concrete input: `ALICE` logs in at second 1000 against
`mixedCaseStore`, whose record is spelled `Alice`. -/
theorem TokenForUser_issued_claims_witness :
    ∃ (u : User) (claims : StringMap),
      mixedCaseAuth.us.GetUserByUsername (demoLib.ToLower "ALICE") = Except.ok u ∧
      demoLib.SignedString SigningMethodHS256 (Claims.MapClaims claims) mixedCaseAuth.key
        = Except.ok (TokenForUser demoLib mixedCaseAuth demoNow "ALICE" "pw").ret ∧
      claims = [("un", Value.string u.Username), ("su", Value.bool u.SuperUser),
        ("vu", Value.int64 (demoNow.Unix + 2678400))] ∧
      claims.length = 3 ∧ (claims.map Prod.fst).Nodup ∧
      demoNow.Unix < demoNow.Unix + 2678400 :=
  TokenForUser_issued_claims demoLib mixedCaseAuth demoNow "ALICE" "pw" (by decide)

/-! ## C11: verification and the user store -/

theorem keyFunc_congr (a b : auth) (hkey : a.key = b.key) : keyFunc a = keyFunc b := by
  funext token
  simp only [keyFunc, hkey]

/-- C11 (amended): `AuthenticateUserByToken` consults the user store; for every
token, key and clock its result (error, context and calls made) is the same
for any two user stores that answer alike, both with an error or both with
users of the same username and superuser flag, on each name it looks up. -/
theorem AuthenticateUserByToken_alike_stores
    (x : Lib) (a b : auth) (now : Time) (ctx : Context) (t : String)
    (hkey : a.key = b.key)
    (halike : ∀ n ∈ (AuthenticateUserByToken x a now ctx t).lookups,
      SameAnswer (a.us.GetUserByUsername n) (b.us.GetUserByUsername n)) :
    AuthenticateUserByToken x a now ctx t = AuthenticateUserByToken x b now ctx t := by
  have hkf : keyFunc b = keyFunc a := (keyFunc_congr a b hkey).symm
  cases hp : x.Parse t (keyFunc a) with
  | error e => simp only [AuthenticateUserByToken, hkf, hp]
  | ok token =>
    obtain ⟨m, hdr, c, v⟩ := token
    cases c with
    | otherClaims => simp only [AuthenticateUserByToken, hkf, hp]
    | MapClaims claims =>
      cases v with
      | false => simp only [AuthenticateUserByToken, hkf, hp]
      | true =>
        have hpb : x.Parse t (keyFunc b) =
            Except.ok ⟨m, hdr, Claims.MapClaims claims, true⟩ := by rw [hkf]; exact hp
        rw [AuthenticateUserByToken_parsed x a now ctx t m hdr claims hp] at halike ⊢
        rw [AuthenticateUserByToken_parsed x b now ctx t m hdr claims hpb]
        cases h1 : (claims.index USERNAME_KEY).assertString with
        | none => rfl
        | some username =>
          simp only [h1] at halike
          cases h2 : a.us.GetUserByUsername username with
          | error e =>
            simp only [h2] at halike
            have hs := halike username (List.mem_singleton.2 rfl)
            cases h3 : b.us.GetUserByUsername username with
            | error e' => simp only [h2, h3]
            | ok w => rw [h2, h3] at hs; exact absurd hs (by simp [SameAnswer])
          | ok u =>
            simp only [h2] at halike
            have hmem : username ∈ (match (claims.index VALID_UNTIL_KEY).assertFloat64 with
                | none => (⟨ctx, some InvalidTokenFormatErr, [username]⟩ : Outcome Context)
                | some validUntil =>
                  if x.int64OfFloat64 validUntil < now.Unix then
                    ⟨ctx, some TokenExpiredErr, [username]⟩
                  else
                    ⟨(ctx.WithValue CtxKey.su (Value.bool u.SuperUser)).WithValue CtxKey.us
                      (Value.string u.Username), none, [username]⟩).lookups := by
              cases (claims.index VALID_UNTIL_KEY).assertFloat64 with
              | none => exact List.mem_singleton.2 rfl
              | some validUntil =>
                by_cases h4 : x.int64OfFloat64 validUntil < now.Unix
                · simp only [h4, if_true]; exact List.mem_singleton.2 rfl
                · simp only [h4, if_false]; exact List.mem_singleton.2 rfl
            have hs := halike username hmem
            cases h3 : b.us.GetUserByUsername username with
            | error e' => rw [h2, h3] at hs; exact absurd hs (by simp [SameAnswer])
            | ok w =>
              rw [h2, h3] at hs
              obtain ⟨hn, hsu⟩ := hs
              simp only [h2, h3, hn, hsu]

/-- C11 (amended) at a concrete input: `demoStore` and a second store that
holds `alice` with another password give the same result for her token. -/
theorem AuthenticateUserByToken_alike_stores_witness :
    AuthenticateUserByToken demoLib demoAuth demoNow Context.Background "tok-alice" =
    AuthenticateUserByToken demoLib
      ⟨⟨fun n => if n = "alice" then Except.ok (demoUser "alice" true "other")
        else Except.error UnknownUserErr⟩, "secret"⟩
      demoNow Context.Background "tok-alice" :=
  AuthenticateUserByToken_alike_stores demoLib demoAuth _ demoNow Context.Background
    "tok-alice" rfl (by
      intro n hn
      have h : n = "alice" := List.mem_singleton.1 hn
      subst h
      exact ⟨rfl, rfl⟩)

/-- C11 as stated fails: for the same token, key and clock, `demoStore` makes
`AuthenticateUserByToken` succeed with the username value `alice`,
`emptyStore` makes it fail with `UnknownUserErr`, and `mixedCaseStore` makes it
succeed with the username value `Alice`, which is not the name in the token. -/
theorem AuthenticateUserByToken_alike_stores_counterexample :
    demoAuth.key = emptyAuth.key ∧ demoAuth.key = mixedCaseAuth.key ∧
    (AuthenticateUserByToken demoLib demoAuth demoNow Context.Background "tok-alice").err
      = none ∧
    (AuthenticateUserByToken demoLib demoAuth demoNow Context.Background
      "tok-alice").ret.Value CtxKey.us = Value.string "alice" ∧
    (AuthenticateUserByToken demoLib emptyAuth demoNow Context.Background "tok-alice").err
      = some UnknownUserErr ∧
    (AuthenticateUserByToken demoLib mixedCaseAuth demoNow Context.Background "tok-alice").err
      = none ∧
    (AuthenticateUserByToken demoLib mixedCaseAuth demoNow Context.Background
      "tok-alice").ret.Value CtxKey.us = Value.string "Alice" ∧
    (AuthenticateUserByToken demoLib demoAuth demoNow Context.Background "tok-alice").lookups
      = ["alice"] :=
  ⟨rfl, rfl, by decide, by decide, by decide, by decide, by decide, by decide⟩

/-! ## C12: the username is lower-cased -/

theorem Char_toNat_ofNat_of_lt (n : Nat) (h : n < 55296) : (Char.ofNat n).toNat = n := by
  have hv : n.isValidChar := Or.inl h
  unfold Char.ofNat
  rw [dif_pos hv]
  simp [Char.ofNatAux, Char.toNat, UInt32.toNat]

theorem Char_toLower_toLower (c : Char) : c.toLower.toLower = c.toLower := by
  by_cases h : 65 ≤ c.toNat ∧ c.toNat ≤ 90
  · have h1 : c.toLower = Char.ofNat (c.toNat + 32) := by
      unfold Char.toLower
      exact if_pos h
    have hv : (Char.ofNat (c.toNat + 32)).toNat = c.toNat + 32 :=
      Char_toNat_ofNat_of_lt _ (by omega)
    rw [h1]
    unfold Char.toLower
    rw [if_neg]
    rw [hv]
    omega
  · have h1 : c.toLower = c := by
      unfold Char.toLower
      exact if_neg h
    rw [h1, h1]

theorem demoLib_LowerIdempotent : demoLib.LowerIdempotent :=
  fun c => Char_toLower_toLower c

theorem ToLower_ToLower (x : Lib) (hidem : x.LowerIdempotent) (s : String) :
    x.ToLower (x.ToLower s) = x.ToLower s := by
  simp only [Lib.ToLower, List.map_map]
  congr 1
  apply List.map_congr_left
  intro c _
  exact hidem c

/-- C12: if lower-casing a rune is idempotent, then for every username,
password, user store and clock `TokenForUser` on the username returns the same
token and error, after the same store calls, as `TokenForUser` on the
lower-cased username; and, idempotent or not, every call of `GetUserByUsername`
it makes has the lower-cased username as its argument. -/
theorem TokenForUser_ToLower (x : Lib) (a : auth) (now : Time) (username password : String) :
    (x.LowerIdempotent →
      (TokenForUser x a now username password).ret
        = (TokenForUser x a now (x.ToLower username) password).ret ∧
      (TokenForUser x a now username password).err
        = (TokenForUser x a now (x.ToLower username) password).err ∧
      (TokenForUser x a now username password).lookups
        = (TokenForUser x a now (x.ToLower username) password).lookups) ∧
    (∀ n ∈ (TokenForUser x a now username password).lookups, n = x.ToLower username) := by
  constructor
  · intro hidem
    have h : TokenForUser x a now username password
        = TokenForUser x a now (x.ToLower username) password := by
      unfold TokenForUser
      simp only [ToLower_ToLower x hidem]
    rw [← h]
    exact ⟨rfl, rfl, rfl⟩
  · intro n hn
    unfold TokenForUser at hn
    simp only at hn
    split at hn
    · exact absurd hn (List.not_mem_nil _)
    · split at hn
      · exact absurd hn (List.not_mem_nil _)
      · split at hn
        · exact List.mem_singleton.1 hn
        · split at hn
          · exact List.mem_singleton.1 hn
          · split at hn
            · exact List.mem_singleton.1 hn
            · exact List.mem_singleton.1 hn

/-- C12 at a concrete input: `ALICE` and `alice` get the same token. -/
theorem TokenForUser_ToLower_witness :
    (TokenForUser demoLib demoAuth demoNow "ALICE" "pw").ret
      = (TokenForUser demoLib demoAuth demoNow (demoLib.ToLower "ALICE") "pw").ret ∧
    (TokenForUser demoLib demoAuth demoNow "ALICE" "pw").err
      = (TokenForUser demoLib demoAuth demoNow (demoLib.ToLower "ALICE") "pw").err ∧
    (TokenForUser demoLib demoAuth demoNow "ALICE" "pw").lookups
      = (TokenForUser demoLib demoAuth demoNow (demoLib.ToLower "ALICE") "pw").lookups :=
  (TokenForUser_ToLower demoLib demoAuth demoNow "ALICE" "pw").1 demoLib_LowerIdempotent

/-! ## C13: the context on success -/

/-- C13: when `AuthenticateUserByToken` returns a nil error, looking up any key
other than the two private keys `su` and `us` in the returned context gives
the same value as in the context passed in; and if the parser returned a valid
token with a claim map, the returned context is the context passed in with
`su` set to the `SuperUser` flag and then `us` set to the `Username` of the
user the store returned for the username claim. -/
theorem AuthenticateUserByToken_frame
    (x : Lib) (a : auth) (now : Time) (ctx : Context) (t : String)
    (hok : (AuthenticateUserByToken x a now ctx t).err = none) :
    (∀ k, k ≠ CtxKey.su → k ≠ CtxKey.us →
      (AuthenticateUserByToken x a now ctx t).ret.Value k = ctx.Value k) ∧
    (∀ m hdr claims,
      x.Parse t (keyFunc a) = Except.ok ⟨m, hdr, Claims.MapClaims claims, true⟩ →
      ∃ username u, claims.index USERNAME_KEY = Value.string username ∧
        a.us.GetUserByUsername username = Except.ok u ∧
        (AuthenticateUserByToken x a now ctx t).ret =
          (ctx.WithValue CtxKey.su (Value.bool u.SuperUser)).WithValue CtxKey.us
            (Value.string u.Username) ∧
        (AuthenticateUserByToken x a now ctx t).ret.Value CtxKey.su = Value.bool u.SuperUser ∧
        (AuthenticateUserByToken x a now ctx t).ret.Value CtxKey.us
          = Value.string u.Username) := by
  have hframe : ∀ (v w : Value) (k : CtxKey), k ≠ CtxKey.su → k ≠ CtxKey.us →
      ((ctx.WithValue CtxKey.su v).WithValue CtxKey.us w).Value k = ctx.Value k := by
    intro v w k h1 h2
    simp [Context.Value, h1, h2]
  cases hp : x.Parse t (keyFunc a) with
  | error e => simp [AuthenticateUserByToken, hp] at hok
  | ok token =>
    obtain ⟨m, hdr, c, v⟩ := token
    cases c with
    | otherClaims =>
      refine ⟨fun k _ _ => by simp [AuthenticateUserByToken, hp], ?_⟩
      intro m' hdr' claims' h
      exact absurd (Except.ok.inj h) (by simp)
    | MapClaims claims =>
      cases v with
      | false =>
        refine ⟨fun k _ _ => by simp [AuthenticateUserByToken, hp], ?_⟩
        intro m' hdr' claims' h
        exact absurd (Except.ok.inj h) (by simp)
      | true =>
        rw [AuthenticateUserByToken_parsed x a now ctx t m hdr claims hp] at hok ⊢
        cases hv : claims.index USERNAME_KEY with
        | nil => simp [hv, Value.assertString] at hok
        | bool b => simp [hv, Value.assertString] at hok
        | int64 n => simp [hv, Value.assertString] at hok
        | float64 f => simp [hv, Value.assertString] at hok
        | composite j => simp [hv, Value.assertString] at hok
        | string username =>
          simp only [hv, Value.assertString] at hok ⊢
          cases h2 : a.us.GetUserByUsername username with
          | error e => simp [h2] at hok
          | ok u =>
            simp only [h2] at hok ⊢
            cases h3 : (claims.index VALID_UNTIL_KEY).assertFloat64 with
            | none => simp [h3] at hok
            | some validUntil =>
              simp only [h3] at hok ⊢
              by_cases h4 : x.int64OfFloat64 validUntil < now.Unix
              · simp [h4] at hok
              · simp only [h4, if_false]
                refine ⟨fun k hk1 hk2 => hframe _ _ k hk1 hk2, ?_⟩
                intro m' hdr' claims' h
                have hc : claims = claims' := by
                  have := Except.ok.inj h
                  simp only [Token.mk.injEq, Claims.MapClaims.injEq] at this
                  exact this.2.2.1
                subst hc
                exact ⟨username, u, hv, h2, rfl, Context_Value_su _ _ _, Context_Value_us _ _ _⟩

/-- C13 at a concrete input: the token of `alice` is accepted with a context
that holds a request id, and the request id is still there afterwards. -/
theorem AuthenticateUserByToken_frame_witness :
    (AuthenticateUserByToken demoLib demoAuth demoNow
      (Context.Background.WithValue (CtxKey.other "request-id") (Value.string "r1"))
      "tok-alice").ret.Value (CtxKey.other "request-id") = Value.string "r1" :=
  ((AuthenticateUserByToken_frame demoLib demoAuth demoNow
    (Context.Background.WithValue (CtxKey.other "request-id") (Value.string "r1"))
    "tok-alice" (by decide)).1 (CtxKey.other "request-id")
    (fun h => CtxKey.noConfusion h) (fun h => CtxKey.noConfusion h)).trans (by decide)

end daemon

namespace store

open daemon

/-! ## Lemmas on the maps of the team store -/

theorem lookup_filter_self (l : List (String × String)) (k : String) :
    (l.filter (fun e => e.1 ≠ k)).lookup k = none := by
  induction l with
  | nil => rfl
  | cons e es ih =>
    obtain ⟨k', v⟩ := e
    by_cases h : k' = k
    · rw [List.filter_cons_of_neg (by simp [h])]
      exact ih
    · have hne : (k == k') = false := by simp [Ne.symm h]
      rw [List.filter_cons_of_pos (by simp [h])]
      simp only [List.lookup_cons, hne]
      exact ih

theorem lookup_filter_of_ne (l : List (String × String)) (k k' : String) (hne : k' ≠ k) :
    (l.filter (fun e => e.1 ≠ k)).lookup k' = l.lookup k' := by
  induction l with
  | nil => rfl
  | cons e es ih =>
    obtain ⟨k'', v⟩ := e
    by_cases h : k'' = k
    · have h2 : (k' == k'') = false := by simp [h, hne]
      rw [List.filter_cons_of_neg (by simp [h])]
      simp only [List.lookup_cons, h2]
      exact ih
    · rw [List.filter_cons_of_pos (by simp [h])]
      simp only [List.lookup_cons]
      rw [ih]

/-- A call that is not a `CreateTokenForTeam` for the token leaves the token
unregistered if it was. -/
theorem step_keeps_unregistered (s : TeamStore) (op : Op) (tok : String)
    (hop : ∀ t, op ≠ Op.CreateTokenForTeam tok t) (h : s.tokens.lookup tok = none) :
    (s.step op).tokens.lookup tok = none := by
  cases op with
  | CreateTeam t =>
    simp only [TeamStore.step, TeamStore.CreateTeam]
    split <;> exact h
  | CreateTokenForTeam token t =>
    have hne : tok ≠ token := fun e => hop t (by rw [e])
    have hb : (tok == token) = false := by simp [hne]
    simp only [TeamStore.step, TeamStore.CreateTokenForTeam]
    split
    · exact h
    · split
      · exact h
      · simp [List.lookup, hb, h]
  | DeleteToken token =>
    simp only [TeamStore.step, TeamStore.DeleteToken]
    split
    · exact h
    · split
      · exact h
      · by_cases he : tok = token
        · rw [he]; exact lookup_filter_self _ _
        · rw [lookup_filter_of_ne _ _ _ he]; exact h

theorem run_keeps_unregistered (ops : List Op) (s : TeamStore) (tok : String)
    (hops : ∀ t, Op.CreateTokenForTeam tok t ∉ ops) (h : s.tokens.lookup tok = none) :
    (s.run ops).tokens.lookup tok = none := by
  induction ops generalizing s with
  | nil => exact h
  | cons op rest ih =>
    have h1 : ∀ t, op ≠ Op.CreateTokenForTeam tok t := by
      intro t e
      exact hops t (by rw [e]; exact List.mem_cons_self _ _)
    have h2 : ∀ t, Op.CreateTokenForTeam tok t ∉ rest :=
      fun t hm => hops t (List.mem_cons_of_mem _ hm)
    exact ih (s.step op) h2 (step_keeps_unregistered s op tok h1 h)

/-! ## C14: looking a team up by token -/

/-- C14: for every store in which `CreateTeam(team)` and then
`CreateTokenForTeam(tok, team)` succeeded, the token is non-empty and
`GetTeamByToken(tok)` returns no error and the team that was created, so a team
with the email `team.Email`; and for every token that is not registered, in
particular after any sequence of calls on the empty store none of which is a
`CreateTokenForTeam` for that token, `GetTeamByToken` fails with the error
`Unknown token`. -/
theorem GetTeamByToken_spec :
    (∀ (s : TeamStore) (team : Team) (tok : String),
      (s.CreateTeam team).1 = none →
      ((s.CreateTeam team).2.CreateTokenForTeam tok team).1 = none →
      tok ≠ "" ∧
      (((s.CreateTeam team).2.CreateTokenForTeam tok team).2.GetTeamByToken tok).2 = none ∧
      (((s.CreateTeam team).2.CreateTokenForTeam tok team).2.GetTeamByToken tok).1 = team ∧
      (((s.CreateTeam team).2.CreateTokenForTeam tok team).2.GetTeamByToken tok).1.Email
        = team.Email) ∧
    (∀ (s : TeamStore) (tok : String), s.tokens.lookup tok = none →
      (s.GetTeamByToken tok).2 = some (GoError.errorsNew "Unknown token")) ∧
    (∀ (ops : List Op) (tok : String), (∀ t, Op.CreateTokenForTeam tok t ∉ ops) →
      ((NewTeamStore.run ops).GetTeamByToken tok).2 = some (GoError.errorsNew "Unknown token")) := by
  have hunreg : ∀ (s : TeamStore) (tok : String), s.tokens.lookup tok = none →
      (s.GetTeamByToken tok).2 = some (GoError.errorsNew "Unknown token") := by
    intro s tok h
    simp [TeamStore.GetTeamByToken, h, UnknownTokenErr]
  refine ⟨?_, hunreg, ?_⟩
  · intro s team tok hteam htok
    cases hl : s.teams.lookup team.Email with
    | some t0 => simp [TeamStore.CreateTeam, hl] at hteam
    | none =>
      have hs1 : s.CreateTeam team = (none, ⟨(team.Email, team) :: s.teams, s.tokens⟩) := by
        simp [TeamStore.CreateTeam, hl]
      rw [hs1] at htok ⊢
      by_cases hempty : tok = ""
      · simp [TeamStore.CreateTokenForTeam, hempty] at htok
      · have hs2 : (⟨(team.Email, team) :: s.teams, s.tokens⟩ : TeamStore).CreateTokenForTeam
            tok team = (none, ⟨(team.Email, team) :: s.teams, (tok, team.Email) :: s.tokens⟩) := by
          simp [TeamStore.CreateTokenForTeam, hempty, List.lookup]
        rw [hs2]
        simp [TeamStore.GetTeamByToken, List.lookup, hempty]
  · intro ops tok hops
    exact hunreg _ tok (run_keeps_unregistered ops NewTeamStore tok hops rfl)

/-- C14 at the scenario of the test: the team `tkp@tkp.dk` is created in the
empty store and gets the token `token-to-test`. -/
theorem GetTeamByToken_spec_witness :
    "token-to-test" ≠ "" ∧
    (((NewTeamStore.CreateTeam testTeam).2.CreateTokenForTeam "token-to-test"
      testTeam).2.GetTeamByToken "token-to-test").2 = none ∧
    (((NewTeamStore.CreateTeam testTeam).2.CreateTokenForTeam "token-to-test"
      testTeam).2.GetTeamByToken "token-to-test").1 = testTeam ∧
    (((NewTeamStore.CreateTeam testTeam).2.CreateTokenForTeam "token-to-test"
      testTeam).2.GetTeamByToken "token-to-test").1.Email = testTeam.Email :=
  GetTeamByToken_spec.1 NewTeamStore testTeam "token-to-test" (by decide) (by decide)

/-! ## C15: creating a token -/

/-- C15: for every store and team, `CreateTokenForTeam` with the empty token
fails with the error `Token cannot be empty`, whether the team is registered or
not, and leaves the store as it was; with a non-empty token and a team whose
email is not registered it fails with `Unknown team`; with a non-empty token
and a team whose email is registered it succeeds and records the token for
that email. -/
theorem CreateTokenForTeam_spec :
    (∀ (s : TeamStore) (team : Team),
      (s.CreateTokenForTeam "" team).1 = some (GoError.errorsNew "Token cannot be empty") ∧
      (s.CreateTokenForTeam "" team).2 = s) ∧
    (∀ (s : TeamStore) (tok : String) (team : Team), tok ≠ "" →
      s.teams.lookup team.Email = none →
      (s.CreateTokenForTeam tok team).1 = some (GoError.errorsNew "Unknown team") ∧
      (s.CreateTokenForTeam tok team).2 = s) ∧
    (∀ (s : TeamStore) (tok : String) (team registered : Team), tok ≠ "" →
      s.teams.lookup team.Email = some registered →
      (s.CreateTokenForTeam tok team).1 = none ∧
      (s.CreateTokenForTeam tok team).2.tokens.lookup tok = some team.Email ∧
      (s.CreateTokenForTeam tok team).2.teams = s.teams) := by
  refine ⟨?_, ?_, ?_⟩
  · intro s team
    simp [TeamStore.CreateTokenForTeam, EmptyTokenErr]
  · intro s tok team htok hteam
    simp [TeamStore.CreateTokenForTeam, htok, hteam, UnknownTeamErr]
  · intro s tok team registered htok hteam
    simp [TeamStore.CreateTokenForTeam, htok, hteam, List.lookup]

/-- C15 at the scenario of the test: a token for the registered team
`tkp@tkp.dk`. -/
theorem CreateTokenForTeam_spec_witness :
    ((NewTeamStore.CreateTeam testTeam).2.CreateTokenForTeam "some-token" testTeam).1 = none ∧
    ((NewTeamStore.CreateTeam testTeam).2.CreateTokenForTeam "some-token"
      testTeam).2.tokens.lookup "some-token" = some testTeam.Email ∧
    ((NewTeamStore.CreateTeam testTeam).2.CreateTokenForTeam "some-token" testTeam).2.teams
      = (NewTeamStore.CreateTeam testTeam).2.teams :=
  CreateTokenForTeam_spec.2.2 (NewTeamStore.CreateTeam testTeam).2 "some-token" testTeam
    testTeam (by decide) (by decide)

/-! ## C16: deleting a token -/

/-- C16: for every store, `DeleteToken` of the empty token returns no error and
leaves the store as it was; `DeleteToken` of a non-empty token that is not
registered fails with the error `Unknown token` and leaves the store as it
was; `DeleteToken` of a registered non-empty token returns no error, after
which `GetTeamByToken` fails on that token with `Unknown token` and returns
for every other token what it returned before. -/
theorem DeleteToken_spec :
    (∀ s : TeamStore, (s.DeleteToken "").1 = none ∧ (s.DeleteToken "").2 = s) ∧
    (∀ (s : TeamStore) (tok : String), tok ≠ "" → s.tokens.lookup tok = none →
      (s.DeleteToken tok).1 = some (GoError.errorsNew "Unknown token") ∧
      (s.DeleteToken tok).2 = s) ∧
    (∀ (s : TeamStore) (tok email : String), tok ≠ "" → s.tokens.lookup tok = some email →
      (s.DeleteToken tok).1 = none ∧
      ((s.DeleteToken tok).2.GetTeamByToken tok).2 = some (GoError.errorsNew "Unknown token") ∧
      (∀ other, other ≠ tok →
        (s.DeleteToken tok).2.GetTeamByToken other = s.GetTeamByToken other)) := by
  refine ⟨?_, ?_, ?_⟩
  · intro s
    simp [TeamStore.DeleteToken]
  · intro s tok htok hreg
    simp [TeamStore.DeleteToken, htok, hreg, UnknownTokenErr]
  · intro s tok email htok hreg
    have hs : s.DeleteToken tok = (none, ⟨s.teams, s.tokens.filter (fun e => e.1 ≠ tok)⟩) := by
      simp [TeamStore.DeleteToken, htok, hreg]
    rw [hs]
    refine ⟨rfl, ?_, ?_⟩
    · simp only [TeamStore.GetTeamByToken, lookup_filter_self, UnknownTokenErr]
    · intro other hne
      simp only [TeamStore.GetTeamByToken, lookup_filter_of_ne _ _ _ hne]

/-- C16 at the scenario of the test: the token `some_token` of the team
`tkp@tkp.dk` is deleted and no longer resolves. -/
theorem DeleteToken_spec_witness :
    (((NewTeamStore.CreateTeam testTeam).2.CreateTokenForTeam "some_token"
      testTeam).2.DeleteToken "some_token").1 = none ∧
    ((((NewTeamStore.CreateTeam testTeam).2.CreateTokenForTeam "some_token"
      testTeam).2.DeleteToken "some_token").2.GetTeamByToken "some_token").2
      = some (GoError.errorsNew "Unknown token") :=
  ⟨(DeleteToken_spec.2.2 ((NewTeamStore.CreateTeam testTeam).2.CreateTokenForTeam "some_token"
      testTeam).2 "some_token" "tkp@tkp.dk" (by decide) (by decide)).1,
   (DeleteToken_spec.2.2 ((NewTeamStore.CreateTeam testTeam).2.CreateTokenForTeam "some_token"
      testTeam).2 "some_token" "tkp@tkp.dk" (by decide) (by decide)).2.1⟩

/-! ## C17: solving a task -/

theorem solveFirst_of_mem (now : Time) (tag : Tag) (l : List Task)
    (h : ∃ ta ∈ l, ta.FlagTag = tag) :
    ∃ pre ta post, l = pre ++ ta :: post ∧ (∀ p ∈ pre, p.FlagTag ≠ tag) ∧ ta.FlagTag = tag ∧
      solveFirst now tag l = some (pre ++ ⟨tag, some now⟩ :: post) := by
  induction l with
  | nil =>
    obtain ⟨ta, hmem, _⟩ := h
    exact absurd hmem (List.not_mem_nil _)
  | cons hd rest ih =>
    by_cases hhd : hd.FlagTag = tag
    · refine ⟨[], hd, rest, rfl, ?_, hhd, ?_⟩
      · intro p hp
        exact absurd hp (List.not_mem_nil _)
      · simp [solveFirst, hhd]
    · have hrest : ∃ ta ∈ rest, ta.FlagTag = tag := by
        obtain ⟨ta, hmem, htag⟩ := h
        rcases List.mem_cons.1 hmem with he | hm
        · rw [he] at htag
          exact absurd htag hhd
        · exact ⟨ta, hm, htag⟩
      obtain ⟨pre, ta, post, hl, hpre, hta, hsolve⟩ := ih hrest
      refine ⟨hd :: pre, ta, post, ?_, ?_, hta, ?_⟩
      · rw [hl]
        rfl
      · intro p hp
        rcases List.mem_cons.1 hp with he | hm
        · rw [he]
          exact hhd
        · exact hpre p hm
      · simp [solveFirst, hhd, hsolve]

theorem solveFirst_of_not_mem (now : Time) (tag : Tag) (l : List Task)
    (h : ∀ ta ∈ l, ta.FlagTag ≠ tag) : solveFirst now tag l = none := by
  induction l with
  | nil => rfl
  | cons hd rest ih =>
    have hhd : hd.FlagTag ≠ tag := h hd (List.mem_cons_self _ _)
    have hrest := ih (fun ta hm => h ta (List.mem_cons_of_mem _ hm))
    simp [solveFirst, hhd, hrest]

/-- C17: for every team, clock and tag, if some task of the team has the tag
then `SolveTaskByTag` returns no error, and afterwards the first task with the
tag has `completedAt` set (to the current time) while the tasks before and
after it, and the rest of the team, are as they were; if no task has the tag,
`SolveTaskByTag` returns an error and leaves the team as it was. -/
theorem SolveTaskByTag_spec (t : Team) (now : Time) (tag : Tag) :
    ((∃ ta ∈ t.Tasks, ta.FlagTag = tag) →
      (t.SolveTaskByTag now tag).1 = none ∧
      (t.SolveTaskByTag now tag).2.Name = t.Name ∧
      (t.SolveTaskByTag now tag).2.Email = t.Email ∧
      (t.SolveTaskByTag now tag).2.HashedPassword = t.HashedPassword ∧
      ∃ pre ta post, t.Tasks = pre ++ ta :: post ∧ (∀ p ∈ pre, p.FlagTag ≠ tag) ∧
        ta.FlagTag = tag ∧
        (t.SolveTaskByTag now tag).2.Tasks = pre ++ ⟨tag, some now⟩ :: post) ∧
    ((∀ ta ∈ t.Tasks, ta.FlagTag ≠ tag) →
      (t.SolveTaskByTag now tag).1 ≠ none ∧ (t.SolveTaskByTag now tag).2 = t) := by
  constructor
  · intro h
    obtain ⟨pre, ta, post, hl, hpre, hta, hsolve⟩ := solveFirst_of_mem now tag t.Tasks h
    have hres : t.SolveTaskByTag now tag
        = (none, ⟨t.Name, t.Email, t.HashedPassword, pre ++ ⟨tag, some now⟩ :: post⟩) := by
      simp only [Team.SolveTaskByTag, hsolve]
    rw [hres]
    exact ⟨rfl, rfl, rfl, rfl, pre, ta, post, hl, hpre, hta, rfl⟩
  · intro h
    simp [Team.SolveTaskByTag, solveFirst_of_not_mem now tag t.Tasks h]

/-- C17 at a concrete input: of the two tasks of `taskTeam` with the tag `abc`,
the first one is completed. -/
theorem SolveTaskByTag_spec_witness :
    (taskTeam.SolveTaskByTag demoNow "abc").1 = none ∧
    (taskTeam.SolveTaskByTag demoNow "abc").2.Tasks
      = [⟨"xyz", none⟩, ⟨"abc", some demoNow⟩, ⟨"abc", none⟩] ∧
    (taskTeam.SolveTaskByTag demoNow "unknown-tag").1 ≠ none ∧
    (taskTeam.SolveTaskByTag demoNow "unknown-tag").2 = taskTeam :=
  ⟨((SolveTaskByTag_spec taskTeam demoNow "abc").1 ⟨⟨"abc", none⟩, by decide, rfl⟩).1,
   by decide,
   ((SolveTaskByTag_spec taskTeam demoNow "unknown-tag").2 (by decide)).1,
   ((SolveTaskByTag_spec taskTeam demoNow "unknown-tag").2 (by decide)).2⟩

end store

namespace daemon

/-! ## C18: the superuser claim is not read -/

/-- What a nil error of `AuthenticateUserByToken` means once the parser has
returned a valid token with a claim map: the username claim is a string, the
store resolved it, the validUntil claim is a `float64` not below the current
time, and the context returned carries the flag and the name of the user. -/
theorem AuthenticateUserByToken_success (x : Lib) (a : auth) (now : Time) (ctx : Context)
    (t : String) (m : SigningMethod) (hdr claims : StringMap)
    (hparse : x.Parse t (keyFunc a) = Except.ok ⟨m, hdr, Claims.MapClaims claims, true⟩)
    (hok : (AuthenticateUserByToken x a now ctx t).err = none) :
    ∃ username u validUntil, claims.index USERNAME_KEY = Value.string username ∧
      a.us.GetUserByUsername username = Except.ok u ∧
      claims.index VALID_UNTIL_KEY = Value.float64 validUntil ∧
      ¬ (x.int64OfFloat64 validUntil < now.Unix) ∧
      AuthenticateUserByToken x a now ctx t =
        ⟨(ctx.WithValue CtxKey.su (Value.bool u.SuperUser)).WithValue CtxKey.us
          (Value.string u.Username), none, [username]⟩ := by
  rw [AuthenticateUserByToken_parsed x a now ctx t m hdr claims hparse] at hok ⊢
  cases hv : claims.index USERNAME_KEY with
  | nil => simp [hv, Value.assertString] at hok
  | bool b => simp [hv, Value.assertString] at hok
  | int64 n => simp [hv, Value.assertString] at hok
  | float64 f => simp [hv, Value.assertString] at hok
  | composite j => simp [hv, Value.assertString] at hok
  | string username =>
    simp only [hv, Value.assertString] at hok ⊢
    cases h2 : a.us.GetUserByUsername username with
    | error e => simp [h2] at hok
    | ok u =>
      simp only [h2] at hok ⊢
      cases hw : claims.index VALID_UNTIL_KEY with
      | nil => simp [hw, Value.assertFloat64] at hok
      | bool b => simp [hw, Value.assertFloat64] at hok
      | int64 n => simp [hw, Value.assertFloat64] at hok
      | string s => simp [hw, Value.assertFloat64] at hok
      | composite j => simp [hw, Value.assertFloat64] at hok
      | float64 validUntil =>
        simp only [hw, Value.assertFloat64] at hok ⊢
        by_cases h4 : x.int64OfFloat64 validUntil < now.Unix
        · simp [h4] at hok
        · simp only [h4, if_false]
          exact ⟨username, u, validUntil, rfl, h2, rfl, h4, rfl⟩

/-- C18: for two token strings that the parser accepts as valid with claim maps
that agree on every key other than `su`, `AuthenticateUserByToken` returns the
same error and the same context, after the same store calls; and when it
returns a nil error, the superuser value of the context is the `SuperUser`
flag, and the username value the `Username`, of the user that
`GetUserByUsername` returned for the username claim. -/
theorem AuthenticateUserByToken_ignores_su
    (x : Lib) (a : auth) (now : Time) (ctx : Context) (t1 t2 : String)
    (m1 m2 : SigningMethod) (hdr1 hdr2 c1 c2 : StringMap)
    (hp1 : x.Parse t1 (keyFunc a) = Except.ok ⟨m1, hdr1, Claims.MapClaims c1, true⟩)
    (hp2 : x.Parse t2 (keyFunc a) = Except.ok ⟨m2, hdr2, Claims.MapClaims c2, true⟩)
    (hsame : ∀ k, k ≠ SUPERUSER_KEY → c1.index k = c2.index k) :
    AuthenticateUserByToken x a now ctx t1 = AuthenticateUserByToken x a now ctx t2 ∧
    ((AuthenticateUserByToken x a now ctx t1).err = none →
      ∃ username u, c1.index USERNAME_KEY = Value.string username ∧
        a.us.GetUserByUsername username = Except.ok u ∧
        (AuthenticateUserByToken x a now ctx t1).ret.Value CtxKey.su
          = Value.bool u.SuperUser ∧
        (AuthenticateUserByToken x a now ctx t1).ret.Value CtxKey.us
          = Value.string u.Username) := by
  constructor
  · rw [AuthenticateUserByToken_parsed x a now ctx t1 m1 hdr1 c1 hp1,
      AuthenticateUserByToken_parsed x a now ctx t2 m2 hdr2 c2 hp2,
      hsame USERNAME_KEY (by decide), hsame VALID_UNTIL_KEY (by decide)]
  · intro hok
    obtain ⟨username, u, validUntil, hun, hres, -, -, heq⟩ :=
      AuthenticateUserByToken_success x a now ctx t1 m1 hdr1 c1 hp1 hok
    rw [heq]
    exact ⟨username, u, hun, hres, Context_Value_su _ _ _, Context_Value_us _ _ _⟩

/-- C18 at a concrete input: a token without `su` claim and a token whose `su`
claim is the string `yes` give the same result. -/
theorem AuthenticateUserByToken_ignores_su_witness :
    AuthenticateUserByToken suLib demoAuth demoNow Context.Background "plain" =
    AuthenticateUserByToken suLib demoAuth demoNow Context.Background "fancy" :=
  (AuthenticateUserByToken_ignores_su suLib demoAuth demoNow Context.Background
    "plain" "fancy" SigningMethodHS256 SigningMethodHS256 demoHeader demoHeader
    [(USERNAME_KEY, Value.string "alice"), (VALID_UNTIL_KEY, Value.float64 2679400)]
    [(USERNAME_KEY, Value.string "alice"), (SUPERUSER_KEY, Value.string "yes"),
     (VALID_UNTIL_KEY, Value.float64 2679400)]
    rfl rfl (by
      intro k hk
      by_cases h1 : k = USERNAME_KEY
      · rw [h1]; rfl
      · by_cases h2 : k = VALID_UNTIL_KEY
        · rw [h2]; rfl
        · have e1 : (k == USERNAME_KEY) = false := by simp [h1]
          have e2 : (k == SUPERUSER_KEY) = false := by simp [hk]
          have e3 : (k == VALID_UNTIL_KEY) = false := by simp [h2]
          simp only [StringMap.index, List.lookup_cons, List.lookup_nil, e1, e2, e3])).1

/-! ## C19: a nil error means an identified user -/

theorem mem_of_lookup_eq_some {β : Type} (l : List (String × β)) (k : String) (v : β)
    (h : l.lookup k = some v) : (k, v) ∈ l := by
  induction l with
  | nil => exact absurd h (by simp)
  | cons e es ih =>
    obtain ⟨k', v'⟩ := e
    by_cases hk : k = k'
    · have hb : (k == k') = true := by simp [hk]
      simp only [List.lookup_cons, hb] at h
      rw [hk, Option.some.inj h]
      exact List.mem_cons_self _ _
    · have hb : (k == k') = false := by simp [hk]
      simp only [List.lookup_cons, hb] at h
      exact List.mem_cons_of_mem _ (ih h)

/-- The demo parser returns a nil error only with a valid token that has a
claim map. -/
theorem demoLib_ParseOkIsValidMap : demoLib.ParseOkIsValidMap := by
  intro t kf token h
  have hall : ∀ e ∈ demoTokens, e.2.1.Claims ≠ Claims.otherClaims := by decide
  simp only [demoLib] at h
  cases hl : demoTokens.lookup t with
  | none => simp [hl] at h
  | some e =>
    obtain ⟨tk, k⟩ := e
    have hmem := mem_of_lookup_eq_some demoTokens t (tk, k) hl
    have hc := hall _ hmem
    simp only [hl] at h
    cases hk : kf tk with
    | error e => simp [hk] at h
    | ok k' =>
      simp only [hk] at h
      by_cases hkk : k' = k
      · simp only [hkk, if_true] at h
        have ht := Except.ok.inj h
        rw [← ht]
        refine ⟨rfl, ?_⟩
        cases hcl : tk.Claims with
        | MapClaims c => exact ⟨c, rfl⟩
        | otherClaims => exact absurd hcl hc
      · simp [hkk] at h

/-- C19: if the parser returns a nil error only with a valid token whose claims
are a claim map, then whenever `AuthenticateUserByToken` returns a nil error,
the parser returned such a token, its username claim is a string that the
store resolved to a user, its validUntil claim is not below the current time,
and the context returned carries the superuser flag and the username of that
user; and, without that assumption, when the parser returns a nil error with a
token that is not valid or whose claims are not a claim map,
`AuthenticateUserByToken` returns the context it was given and a nil error,
having made no store call. -/
theorem AuthenticateUserByToken_nil_error
    (x : Lib) (a : auth) (now : Time) (ctx : Context) (t : String) :
    (x.ParseOkIsValidMap → (AuthenticateUserByToken x a now ctx t).err = none →
      ∃ token claims username u validUntil,
        x.Parse t (keyFunc a) = Except.ok token ∧ token.Valid = true ∧
        token.Claims = Claims.MapClaims claims ∧
        claims.index USERNAME_KEY = Value.string username ∧
        a.us.GetUserByUsername username = Except.ok u ∧
        claims.index VALID_UNTIL_KEY = Value.float64 validUntil ∧
        now.Unix ≤ x.int64OfFloat64 validUntil ∧
        (AuthenticateUserByToken x a now ctx t).ret.Value CtxKey.us
          = Value.string u.Username ∧
        (AuthenticateUserByToken x a now ctx t).ret.Value CtxKey.su
          = Value.bool u.SuperUser) ∧
    (∀ token, x.Parse t (keyFunc a) = Except.ok token →
      (token.Valid = false ∨ ∀ claims, token.Claims ≠ Claims.MapClaims claims) →
      (AuthenticateUserByToken x a now ctx t).ret = ctx ∧
      (AuthenticateUserByToken x a now ctx t).err = none ∧
      (AuthenticateUserByToken x a now ctx t).lookups = []) := by
  constructor
  · intro hvalid hok
    cases hp : x.Parse t (keyFunc a) with
    | error e => simp [AuthenticateUserByToken, hp] at hok
    | ok token =>
      obtain ⟨hv, claims, hc⟩ := hvalid t (keyFunc a) token hp
      obtain ⟨m, hdr, c, v⟩ := token
      simp only at hv hc
      subst hv
      subst hc
      obtain ⟨username, u, validUntil, hun, hres, hvu, hnot, heq⟩ :=
        AuthenticateUserByToken_success x a now ctx t m hdr claims hp hok
      rw [heq]
      exact ⟨_, claims, username, u, validUntil, rfl, rfl, rfl, hun, hres, hvu,
        Int.not_lt.1 hnot, Context_Value_us _ _ _, Context_Value_su _ _ _⟩
  · intro token hp hbad
    obtain ⟨m, hdr, c, v⟩ := token
    cases c with
    | otherClaims => simp [AuthenticateUserByToken, hp]
    | MapClaims claims =>
      cases v with
      | false => simp [AuthenticateUserByToken, hp]
      | true =>
        rcases hbad with h | h
        · exact absurd h (by simp)
        · exact absurd rfl (h claims)

/-- C19 at concrete inputs: with the demo parser, which returns a nil error only
with valid tokens, the accepted token of `alice` identifies her; with a parser
that returns a token not marked valid with a nil error, verification returns
the context it was given and a nil error. -/
theorem AuthenticateUserByToken_nil_error_witness :
    (∃ token claims username u validUntil,
        demoLib.Parse "tok-alice" (keyFunc demoAuth) = Except.ok token ∧ token.Valid = true ∧
        token.Claims = Claims.MapClaims claims ∧
        claims.index USERNAME_KEY = Value.string username ∧
        demoAuth.us.GetUserByUsername username = Except.ok u ∧
        claims.index VALID_UNTIL_KEY = Value.float64 validUntil ∧
        demoNow.Unix ≤ demoLib.int64OfFloat64 validUntil ∧
        (AuthenticateUserByToken demoLib demoAuth demoNow Context.Background
          "tok-alice").ret.Value CtxKey.us = Value.string u.Username ∧
        (AuthenticateUserByToken demoLib demoAuth demoNow Context.Background
          "tok-alice").ret.Value CtxKey.su = Value.bool u.SuperUser) ∧
    ((AuthenticateUserByToken looseLib demoAuth demoNow Context.Background "anything").ret
        = Context.Background ∧
      (AuthenticateUserByToken looseLib demoAuth demoNow Context.Background "anything").err
        = none ∧
      (AuthenticateUserByToken looseLib demoAuth demoNow Context.Background "anything").lookups
        = []) :=
  ⟨(AuthenticateUserByToken_nil_error demoLib demoAuth demoNow Context.Background
      "tok-alice").1 demoLib_ParseOkIsValidMap (by decide),
   (AuthenticateUserByToken_nil_error looseLib demoAuth demoNow Context.Background
      "anything").2 _ rfl (Or.inl rfl)⟩

end daemon
